import Mathlib

/-! Go Service Monitor: a shallow embedding of the API server and its scripts.

The development follows `cmd/api/main.go` (the four request handlers, `init`
and the lifecycle of `main`) and `scripts/system_info.go` (`formatDuration`).

Conventions of the embedding:

* a Go `string` is a sequence of bytes (`GoString`); the text of a literal is
  its UTF-8 encoding (`utf8`). Only `formatDuration`, which prints decimal
  numerals and ASCII letters and sends nothing through a codec, keeps its
  result as text;
* a clock reading (`time.Time`, `time.Now()`) is an integer number of
  nanoseconds; a handler receives the clock as a function `Clock`, whose
  value at `k` is what the `k`-th read of the clock inside that handler call
  returns (Go evaluates the calls of a composite literal in lexical order);
* `http.ResponseWriter` is a record of the header map, the status line (absent
  until the header is written) and the sequence of values the body holds: for
  each `json.NewEncoder(w).Encode(v)` the value a client decodes from the JSON
  text sent, which is `v` with every string passed through `jsonString`; the
  handlers ignore the error the encoder returns;
* the process-wide logrus logger is passed in and returned explicitly; an
  `Entry` is the event handed to the logger.
-/

namespace GoServiceMonitor

/-! ## Strings and package unicode/utf8 -/

/-- A Go `string`: a sequence of bytes. -/
abbrev GoString := List Nat

/-- Go `utf8.AppendRune` for a Unicode scalar value: its UTF-8 bytes. -/
def encodeRune (r : Nat) : List Nat :=
  if r ≤ 0x7F then [r]
  else if r ≤ 0x7FF then [0xC0 + r / 64, 0x80 + r % 64]
  else if r ≤ 0xFFFF then [0xE0 + r / 4096, 0x80 + r / 64 % 64, 0x80 + r % 64]
  else [0xF0 + r / 262144, 0x80 + r / 4096 % 64, 0x80 + r / 64 % 64, 0x80 + r % 64]

/-- The bytes of a string literal of the Go source. -/
def utf8 (s : String) : GoString :=
  s.toList.flatMap (fun c => encodeRune c.toNat)

/-- A continuation byte of UTF-8, `0x80` to `0xBF`. -/
def isCont (b : Nat) : Bool := decide (0x80 ≤ b ∧ b ≤ 0xBF)

/-- Go `utf8.DecodeRuneInString`, its size result: the number of bytes of the
UTF-8 sequence at the head of the string, and `0` where Go returns
`(RuneError, 1)` (or `(RuneError, 0)` for the empty string): a byte that starts
no sequence, a truncated or overlong sequence, a surrogate, a value above
`U+10FFFF`. -/
def runeLen : List Nat → Nat
  | [] => 0
  | b0 :: rest =>
    if b0 < 0x80 then 1
    else if 0xC2 ≤ b0 ∧ b0 ≤ 0xDF then
      match rest with
      | b1 :: _ => if isCont b1 then 2 else 0
      | _ => 0
    else if 0xE0 ≤ b0 ∧ b0 ≤ 0xEF then
      match rest with
      | b1 :: b2 :: _ =>
        if (if b0 = 0xE0 then 0xA0 else 0x80) ≤ b1 ∧
            b1 ≤ (if b0 = 0xED then 0x9F else 0xBF) ∧ isCont b2 then 3
        else 0
      | _ => 0
    else if 0xF0 ≤ b0 ∧ b0 ≤ 0xF4 then
      match rest with
      | b1 :: b2 :: b3 :: _ =>
        if (if b0 = 0xF0 then 0x90 else 0x80) ≤ b1 ∧
            b1 ≤ (if b0 = 0xF4 then 0x8F else 0xBF) ∧ isCont b2 ∧ isCont b3 then 4
        else 0
      | _ => 0
    else 0

/-- The walk of Go `utf8.ValidString`; `skip` counts the bytes still to pass of
the sequence entered last. -/
def validFrom : Nat → List Nat → Bool
  | _, [] => true
  | skip + 1, _ :: rest => validFrom skip rest
  | 0, b :: rest =>
    match runeLen (b :: rest) with
    | 0 => false
    | n + 1 => validFrom n rest

/-- Go `utf8.ValidString`: the bytes are a sequence of valid UTF-8 encodings. -/
def utf8Valid (s : GoString) : Bool := validFrom 0 s

/-- The walk of `jsonString`; `skip` counts the bytes still to copy of the
sequence entered last. -/
def replaceInvalid : Nat → List Nat → List Nat
  | _, [] => []
  | skip + 1, b :: rest => b :: replaceInvalid skip rest
  | 0, b :: rest =>
    match runeLen (b :: rest) with
    | 0 => 0xEF :: 0xBF :: 0xBD :: replaceInvalid 0 rest
    | n + 1 => b :: replaceInvalid n rest

/-- The string a client decodes from the JSON text `encoding/json` writes for
the Go string `s`: valid UTF-8 sequences come through, and every byte for which
`utf8.DecodeRuneInString` returns `(RuneError, 1)` is written as the escape
of `U+FFFD`, whose UTF-8 bytes are `EF BF BD`. -/
def jsonString (s : GoString) : GoString := replaceInvalid 0 s

/-! ## package time -/

/-- A reading of the clock, in nanoseconds. -/
abbrev Time := Int

/-- Go `time.Duration`: a signed 64-bit count of nanoseconds. -/
abbrev Duration := Int

/-- The clock seen by one handler call: `clock k` is the `k`-th reading. -/
abbrev Clock := Nat → Time

def Nanosecond : Duration := 1
def Microsecond : Duration := 1000 * Nanosecond
def Millisecond : Duration := 1000 * Microsecond
def Second : Duration := 1000 * Millisecond
def Minute : Duration := 60 * Second
def Hour : Duration := 60 * Minute

def minDuration : Duration := -(2 ^ 63)
def maxDuration : Duration := 2 ^ 63 - 1

/-- Two's complement reduction of an integer to the signed 64-bit range. -/
def wrap64 (x : Int) : Int := (x + 2 ^ 63) % 2 ^ 64 - 2 ^ 63

/-- A reading of the monotonic clock of the Go runtime, which `time.Now` attaches
to every `Time` and `time.Since` subtracts: nanoseconds since the start of the
process, held in an `int64`, hence non-negative and below `2^63`. -/
def isReading (t : Time) : Prop := 0 ≤ t ∧ t < 2 ^ 63

instance (t : Time) : Decidable (isReading t) := by
  unfold isReading; infer_instance

/-- Go `time.subMono`: the difference of two monotonic readings as a
`Duration`, computed in `int64` and saturated when the subtraction wraps. -/
def subMono (t u : Int) : Duration :=
  let d := wrap64 (t - u)
  if d < 0 ∧ t > u then maxDuration
  else if d > 0 ∧ t < u then minDuration
  else d

/-- Go `time.Since(t)` when the clock reads `now`: the time elapsed since `t`. -/
def timeSince (t now : Time) : Duration := subMono now t

/-- The loop of Go `time.fmtInt`: while `v > 0`, the byte `v%10 + '0'` is put
in front of `buf` and `v` is divided by 10. A `uint64` has at most 20 decimal
digits, which bounds the number of rounds. -/
def fmtIntLoop : Nat → List Nat → Nat → List Nat
  | 0, buf, _ => buf
  | fuel + 1, buf, v =>
    if v = 0 then buf else fmtIntLoop fuel ((v % 10 + 48) :: buf) (v / 10)

/-- Go `time.fmtInt`: the decimal digits of `v` put in front of `buf`. -/
def fmtInt (buf : List Nat) (v : Nat) : List Nat :=
  if v = 0 then 48 :: buf else fmtIntLoop 20 buf v

/-- The loop of Go `time.fmtFrac`: `prec` low digits of `v` are moved in front
of `buf`, trailing zeros left out. -/
def fmtFracLoop : Nat → List Nat × Nat × Bool → List Nat × Nat × Bool
  | 0, st => st
  | n + 1, (buf, v, pr) =>
    let digit := v % 10
    let pr := pr || digit != 0
    let buf := if pr then (digit + 48) :: buf else buf
    fmtFracLoop n (buf, v / 10, pr)

/-- Go `time.fmtFrac`: the fraction `v / 10^prec` in front of `buf`, with its
decimal point (byte 46), and the integer part that is left. -/
def fmtFrac (buf : List Nat) (v prec : Nat) : List Nat × Nat :=
  let st := fmtFracLoop prec (buf, v, false)
  (if st.2.2 then 46 :: st.1 else st.1, st.2.1)

/-- Go `Duration.String`: a duration printed as `72h3m0.5s`; durations below a
second use a smaller unit, zero prints as `0s`. The bytes are `h` 104, `m` 109,
`n` 110, `s` 115, `-` 45, `0` 48, and `C2 B5` for the micro sign. -/
def durationString (d : Duration) : GoString :=
  let u := d.natAbs
  let body : List Nat :=
    if u < 1000000000 then
      if u = 0 then [48, 115]
      else if u < 1000 then
        let f := fmtFrac [110, 115] u 0
        fmtInt f.1 f.2
      else if u < 1000000 then
        let f := fmtFrac [0xC2, 0xB5, 115] u 3
        fmtInt f.1 f.2
      else
        let f := fmtFrac [109, 115] u 6
        fmtInt f.1 f.2
    else
      let f := fmtFrac [115] u 9
      let buf := fmtInt f.1 (f.2 % 60)
      let u := f.2 / 60
      if u > 0 then
        let buf := fmtInt (109 :: buf) (u % 60)
        let u := u / 60
        if u > 0 then fmtInt (104 :: buf) u else buf
      else buf
  if d < 0 then 45 :: body else body

/-! ## Reading a duration string -/

/-- A decimal digit, bytes 48 to 57. -/
def isDigit (c : Nat) : Bool := decide (48 ≤ c ∧ c ≤ 57)

/-- The number a sequence of decimal digits writes. -/
def digitsVal (ds : List Nat) : Nat :=
  ds.foldl (fun a c => 10 * a + (c - 48)) 0

/-- The head of a list is not a decimal digit. -/
def headNotDigit : List Nat → Prop
  | [] => True
  | c :: _ => isDigit c = false

/-- The number written by the leading digits of `s`, continuing `acc`, and the
rest of `s`. -/
def readNat : Nat → List Nat → Nat × List Nat
  | acc, [] => (acc, [])
  | acc, c :: cs => if isDigit c then readNat (10 * acc + (c - 48)) cs else (acc, c :: cs)

/-- The digits after a decimal point: their number `f`, the scale `10^k` for
`k` digits, and the rest. -/
def readFracDigits : Nat → Nat → List Nat → Nat × Nat × List Nat
  | f, scale, [] => (f, scale, [])
  | f, scale, c :: cs =>
    if isDigit c then readFracDigits (10 * f + (c - 48)) (10 * scale) cs
    else (f, scale, c :: cs)

/-- An optional fraction `.ddd`: the pair `f, scale` with value `f / scale`. -/
def readFrac : List Nat → Nat × Nat × List Nat
  | [] => (0, 1, [])
  | c :: cs => if c = 46 then readFracDigits 0 1 cs else (0, 1, c :: cs)

/-- A unit of `time.ParseDuration` at the head of `s`, in nanoseconds: `h`,
`ms`, `m`, `s`, `ns` and `µs` (bytes `C2 B5 73`). -/
def readUnit : List Nat → Option (Nat × List Nat)
  | 104 :: r => some (3600000000000, r)
  | 109 :: 115 :: r => some (1000000, r)
  | 109 :: r => some (60000000000, r)
  | 115 :: r => some (1000000000, r)
  | 110 :: 115 :: r => some (1, r)
  | 0xC2 :: 0xB5 :: 115 :: r => some (1000, r)
  | _ => none

/-- The sum of the terms `number [fraction] unit` of `s`, added to `total`;
`none` when a term has no known unit. Each round reads one term. -/
def readTerms : Nat → Nat → List Nat → Option Nat
  | _, total, [] => some total
  | 0, _, _ :: _ => none
  | fuel + 1, total, c :: cs =>
    let n := readNat 0 (c :: cs)
    let f := readFrac n.2
    match readUnit f.2.2 with
    | none => none
    | some (unit, rest) => readTerms fuel (total + n.1 * unit + f.1 * unit / f.2.1) rest

/-- The duration a string denotes in the format of Go `time.ParseDuration`, a
sign followed by terms such as `1h5m0.5s`, in exact arithmetic. A string of
`n` bytes has fewer than `n` terms. -/
def parseDuration (s : GoString) : Option Duration :=
  match s with
  | [] => none
  | 45 :: rest => (readTerms rest.length 0 rest).map (fun n => -(n : Int))
  | c :: cs => (readTerms (c :: cs).length 0 (c :: cs)).map (fun n => (n : Int))

/-! ## net/http and gorilla/mux -/

/-- The `ServiceStatus` record of `cmd/api/main.go`. -/
structure ServiceStatus where
  Name : GoString
  Status : GoString
  Uptime : GoString
  Timestamp : Time
  deriving DecidableEq, Repr

/-- The `HealthResponse` record of `cmd/api/main.go`. -/
structure HealthResponse where
  Status : GoString
  Timestamp : Time
  Version : GoString
  deriving DecidableEq, Repr

/-- A value handed to `json.NewEncoder(w).Encode`. -/
inductive Payload where
  | stringMap (m : List (GoString × GoString))
  | health (h : HealthResponse)
  | serviceList (l : List ServiceStatus)
  | service (s : ServiceStatus)
  deriving DecidableEq, Repr

/-- A `ServiceStatus` as decoded from its JSON text. -/
def ServiceStatus.json (s : ServiceStatus) : ServiceStatus :=
  { Name := jsonString s.Name, Status := jsonString s.Status,
    Uptime := jsonString s.Uptime, Timestamp := s.Timestamp }

/-- A `HealthResponse` as decoded from its JSON text. -/
def HealthResponse.json (h : HealthResponse) : HealthResponse :=
  { Status := jsonString h.Status, Timestamp := h.Timestamp,
    Version := jsonString h.Version }

/-- The value a client decodes from the JSON text written for `v`. -/
def Payload.json : Payload → Payload
  | .stringMap m => .stringMap (m.map (fun kv => (jsonString kv.1, jsonString kv.2)))
  | .health h => .health h.json
  | .serviceList l => .serviceList (l.map ServiceStatus.json)
  | .service s => .service s.json

def StatusOK : Nat := 200
def StatusNotFound : Nat := 404

/-- The state of an `http.ResponseWriter`. -/
structure ResponseWriter where
  header : List (GoString × GoString)
  status : Option Nat
  body : List Payload
  deriving DecidableEq, Repr

namespace ResponseWriter

/-- The writer a handler is called with: nothing set, nothing written. -/
def fresh : ResponseWriter := { header := [], status := none, body := [] }

/-- Go `w.Header().Set(key, value)`. -/
def setHeader (w : ResponseWriter) (key value : GoString) : ResponseWriter :=
  { w with header := (key, value) :: w.header.filter (fun kv => kv.1 != key) }

/-- Go `w.WriteHeader(code)`: only the first call sets the status. -/
def writeHeader (w : ResponseWriter) (code : Nat) : ResponseWriter :=
  match w.status with
  | none => { w with status := some code }
  | some _ => w

/-- Go `json.NewEncoder(w).Encode(v)`: a write, which sends status 200 first
when no header was written before; the body receives the JSON text of `v`,
recorded as the value it decodes to. -/
def encode (w : ResponseWriter) (v : Payload) : ResponseWriter :=
  let w := w.writeHeader StatusOK
  { w with body := w.body ++ [v.json] }

end ResponseWriter

/-- The parts of an `http.Request` the handlers read, with the route variables
that `mux.Vars` returns for it. -/
structure Request where
  Method : GoString
  Path : GoString
  RemoteAddr : GoString
  Vars : List (GoString × GoString)
  deriving DecidableEq, Repr

/-- Go `mux.Vars(r)[key]`: the empty string when the variable is absent. -/
def muxVar (r : Request) (key : GoString) : GoString :=
  (r.Vars.lookup key).getD []

/-! ## logrus -/

/-- The logrus levels, most severe first. -/
inductive Level where
  | PanicLevel | FatalLevel | ErrorLevel | WarnLevel | InfoLevel | DebugLevel | TraceLevel
  deriving DecidableEq, Repr

/-- The numeric value logrus gives a level. -/
def Level.toNat : Level → Nat
  | .PanicLevel => 0
  | .FatalLevel => 1
  | .ErrorLevel => 2
  | .WarnLevel => 3
  | .InfoLevel => 4
  | .DebugLevel => 5
  | .TraceLevel => 6

/-- The value of a structured log field. -/
inductive FieldValue where
  | str (s : GoString)
  | int (n : Int)
  deriving DecidableEq, Repr

/-- One event handed to the logger and written by it. -/
structure Entry where
  level : Level
  message : GoString
  fields : List (GoString × FieldValue)
  time : Time
  deriving DecidableEq, Repr

inductive Formatter where
  | TextFormatter | JSONFormatter
  deriving DecidableEq, Repr

inductive Output where
  | Stderr | Stdout
  deriving DecidableEq, Repr

/-- The process-wide logger: its configuration and the events written so far. -/
structure Logger where
  formatter : Formatter
  out : Output
  level : Level
  written : List Entry
  deriving DecidableEq, Repr

namespace Logger

/-- The logrus standard logger before any configuration. -/
def std : Logger :=
  { formatter := .TextFormatter, out := .Stderr, level := .InfoLevel, written := [] }

/-- Go `logger.IsLevelEnabled(level)`. -/
def isLevelEnabled (lg : Logger) (lvl : Level) : Bool :=
  decide (lg.level.toNat ≥ lvl.toNat)

/-- Go `log.WithFields(fields).Log(level, message)`: the event is written, with
the time read from the clock, only when the level is enabled. -/
def log (lg : Logger) (lvl : Level) (fields : List (GoString × FieldValue))
    (message : GoString) (now : Time) : Logger :=
  if lg.isLevelEnabled lvl then
    { lg with written := lg.written ++ [{ level := lvl, message := message,
                                          fields := fields, time := now }] }
  else lg

end Logger

/-! ## cmd/api/main.go -/

/-- The package state after `init`: the configured logger and `startTime`. -/
structure Globals where
  logger : Logger
  startTime : Time
  deriving DecidableEq, Repr

/-- Go `init` of `cmd/api/main.go`: JSON formatter, standard output, level
`Info`, and `startTime` read from the clock. -/
def init (now : Time) : Globals :=
  { logger := { Logger.std with formatter := .JSONFormatter, out := .Stdout,
                                level := .InfoLevel },
    startTime := now }

/-- Go `homeHandler`. -/
def homeHandler (startTime : Time) (clock : Clock) (lg : Logger)
    (w : ResponseWriter) (r : Request) : ResponseWriter × Logger :=
  let response : List (GoString × GoString) :=
    [(utf8 "message", utf8 "Welcome to Go Service Monitor API"),
     (utf8 "version", utf8 "1.0.0"),
     (utf8 "uptime", durationString (timeSince startTime (clock 0)))]
  let w := w.setHeader (utf8 "Content-Type") (utf8 "application/json")
  let w := w.encode (.stringMap response)
  let lg := lg.log .InfoLevel
    [(utf8 "path", .str r.Path), (utf8 "method", .str r.Method),
     (utf8 "remote", .str r.RemoteAddr)]
    (utf8 "Home endpoint accessed") (clock 1)
  (w, lg)

/-- Go `healthHandler`. -/
def healthHandler (clock : Clock) (lg : Logger)
    (w : ResponseWriter) (_r : Request) : ResponseWriter × Logger :=
  let health : HealthResponse :=
    { Status := utf8 "healthy", Timestamp := clock 0, Version := utf8 "1.0.0" }
  let w := w.setHeader (utf8 "Content-Type") (utf8 "application/json")
  let w := w.writeHeader StatusOK
  let w := w.encode (.health health)
  let lg := lg.log .DebugLevel [] (utf8 "Health check performed") (clock 1)
  (w, lg)

/-- The slice literal of `getServicesHandler`. -/
def servicesSlice (startTime : Time) (clock : Clock) : List ServiceStatus :=
  [{ Name := utf8 "api-server", Status := utf8 "running",
     Uptime := durationString (timeSince startTime (clock 0)), Timestamp := clock 1 },
   { Name := utf8 "database", Status := utf8 "running", Uptime := utf8 "48h30m",
     Timestamp := clock 2 },
   { Name := utf8 "cache", Status := utf8 "running", Uptime := utf8 "24h15m",
     Timestamp := clock 3 }]

/-- Go `getServicesHandler`. -/
def getServicesHandler (startTime : Time) (clock : Clock) (lg : Logger)
    (w : ResponseWriter) (r : Request) : ResponseWriter × Logger :=
  let services := servicesSlice startTime clock
  let w := w.setHeader (utf8 "Content-Type") (utf8 "application/json")
  let w := w.encode (.serviceList services)
  let lg := lg.log .InfoLevel
    [(utf8 "path", .str r.Path), (utf8 "method", .str r.Method),
     (utf8 "service_count", .int services.length)]
    (utf8 "Services list requested") (clock 4)
  (w, lg)

/-- The map literal of `getServiceHandler` ("Mock service data"), as the list
of its key/value pairs. -/
def servicesMap (startTime : Time) (clock : Clock) : List (GoString × ServiceStatus) :=
  [(utf8 "api-server", { Name := utf8 "api-server", Status := utf8 "running",
                         Uptime := durationString (timeSince startTime (clock 0)),
                         Timestamp := clock 1 }),
   (utf8 "database", { Name := utf8 "database", Status := utf8 "running",
                       Uptime := utf8 "48h30m", Timestamp := clock 2 }),
   (utf8 "cache", { Name := utf8 "cache", Status := utf8 "running",
                    Uptime := utf8 "24h15m", Timestamp := clock 3 })]

/-- Go `fmt.Sprintf("Service '%s' not found", name)`. -/
def notFoundMessage (name : GoString) : GoString :=
  utf8 "Service '" ++ name ++ utf8 "' not found"

/-- Go `getServiceHandler`. -/
def getServiceHandler (startTime : Time) (clock : Clock) (lg : Logger)
    (w : ResponseWriter) (r : Request) : ResponseWriter × Logger :=
  let serviceName := muxVar r (utf8 "name")
  let services := servicesMap startTime clock
  match services.lookup serviceName with
  | none =>
    let w := w.setHeader (utf8 "Content-Type") (utf8 "application/json")
    let w := w.writeHeader StatusNotFound
    let w := w.encode (.stringMap [(utf8 "error", notFoundMessage serviceName)])
    let lg := lg.log .WarnLevel [(utf8 "service", .str serviceName)]
      (utf8 "Service not found") (clock 4)
    (w, lg)
  | some service =>
    let w := w.setHeader (utf8 "Content-Type") (utf8 "application/json")
    let w := w.encode (.service service)
    let lg := lg.log .InfoLevel
      [(utf8 "service", .str serviceName), (utf8 "status", .str service.Status)]
      (utf8 "Service status requested") (clock 4)
    (w, lg)

/-- The names of the seed set. -/
def seedNames : List GoString := [utf8 "api-server", utf8 "database", utf8 "cache"]

/-! ## scripts/system_info.go -/

/-- Go `formatDuration` of `scripts/system_info.go`. The quotient `/` of Go
truncates toward zero (`Int.tdiv`); `%d` prints the decimal numeral. For an
`int64` argument no intermediate value leaves the `int64` range: every product
is bounded in absolute value by the argument. -/
def formatDuration (d : Duration) : String :=
  let days := d.tdiv (24 * Hour)
  let d := d - days * 24 * Hour
  let hours := d.tdiv Hour
  let d := d - hours * Hour
  let minutes := d.tdiv Minute
  if days > 0 then
    toString days ++ "d " ++ toString hours ++ "h " ++ toString minutes ++ "m"
  else if hours > 0 then
    toString hours ++ "h " ++ toString minutes ++ "m"
  else
    toString minutes ++ "m"

/-! ## The lifecycle of `main` (cmd/api/main.go, lines 44-89)

The process is a transition system with three agents: the main goroutine, the
goroutine started by the `go` statement, and the operating system delivering
signals. A state records where each goroutine stands and the signal plumbing.
-/

/-- The signals the environment may deliver. `SIGHUP` stands for a signal that
`signal.Notify(quit, SIGINT, SIGTERM)` does not relay. -/
inductive Signal where
  | SIGINT | SIGTERM | SIGHUP
  deriving DecidableEq, Repr

/-- The next statement of the main goroutine. -/
inductive MainPc where
  /-- Lines 45-65: the start-up log line, the router, the routes, `srv`. -/
  | atStart
  /-- Line 68: the `go` statement. -/
  | atGo
  /-- Lines 76-77: `make(chan os.Signal, 1)` and `signal.Notify`. -/
  | atNotify
  /-- Line 78: the receive from `quit`. -/
  | atRecv
  /-- Lines 80-82: the shutdown log line and `context.WithTimeout`. -/
  | atCtx
  /-- Line 84: the call of `srv.Shutdown(ctx)`. -/
  | atShutdown
  /-- Inside `srv.Shutdown`, which has not returned yet. -/
  | inShutdown
  /-- Line 85: `log.Fatalf`, after `Shutdown` returned an error. -/
  | atFatal
  /-- Lines 88-89: the last log line and the return of `main`. -/
  | atExitLog
  deriving DecidableEq, Repr

/-- The next statement of the goroutine of lines 68-73. -/
inductive ServerPc where
  /-- The `go` statement has not run. -/
  | absent
  /-- Line 69: `log.Infof`. -/
  | atListenLog
  /-- Line 70: inside `srv.ListenAndServe()`. -/
  | inListenAndServe
  /-- Line 71: `log.Fatalf`, after an error other than `http.ErrServerClosed`. -/
  | atServeFatal
  /-- The function literal has returned. -/
  | finished
  deriving DecidableEq, Repr

/-- How the process ended. -/
inductive Exit where
  | code (n : Nat)
  | killed (s : Signal)
  deriving DecidableEq, Repr

/-- A state of the process. -/
structure State where
  main : MainPc
  server : ServerPc
  /-- Whether `signal.Notify` has been called. -/
  notified : Bool
  /-- The content of the channel `quit`, of capacity one. -/
  quit : Option Signal
  /-- The signal the receive of line 78 took from `quit`, if it has run. -/
  received : Option Signal
  /-- Whether `srv.Shutdown` has been called. -/
  shutdownCalled : Bool
  /-- The timeout, in seconds, of the context handed to `srv.Shutdown`. -/
  deadline : Option Nat
  exit : Option Exit
  deriving DecidableEq, Repr

/-- The state in which `main` is entered. -/
def State.initial : State :=
  { main := .atStart, server := .absent, notified := false, quit := none,
    received := none, shutdownCalled := false, deadline := none, exit := none }

/-- The moves of the three agents. -/
inductive Action where
  /-- The main goroutine runs its next statement. -/
  | mainStep
  /-- The call `srv.Shutdown(ctx)` returns nil: the drain completed. -/
  | drained
  /-- The call `srv.Shutdown(ctx)` returns the error of the expired context. -/
  | deadlineExceeded
  /-- The server goroutine runs its next statement. -/
  | serverStep
  /-- The call `srv.ListenAndServe()` returns an error other than `http.ErrServerClosed`. -/
  | listenError
  /-- The call `srv.ListenAndServe()` returns `http.ErrServerClosed`. -/
  | serverClosed
  /-- The operating system delivers a signal to the process. -/
  | signal (s : Signal)
  deriving DecidableEq, Repr

/-- The moves made by the main goroutine itself. -/
def Action.byMain : Action → Bool
  | .mainStep | .drained | .deadlineExceeded => true
  | _ => false

/-- Whether `signal.Notify(quit, syscall.SIGINT, syscall.SIGTERM)` relays the signal. -/
def relayed : Signal → Bool
  | .SIGINT | .SIGTERM => true
  | .SIGHUP => false

/-- One statement of the main goroutine. The receive of line 78 blocks while
`quit` is empty; `log.Fatalf` ends the process with code 1, the return of
`main` with code 0. -/
def stepMain (s : State) : Option State :=
  match s.main with
  | .atStart => some { s with main := .atGo }
  | .atGo => some { s with main := .atNotify, server := .atListenLog }
  | .atNotify => some { s with main := .atRecv, notified := true }
  | .atRecv =>
    match s.quit with
    | none => none
    | some sig => some { s with main := .atCtx, quit := none, received := some sig }
  | .atCtx => some { s with main := .atShutdown, deadline := some 30 }
  | .atShutdown => some { s with main := .inShutdown, shutdownCalled := true }
  | .inShutdown => none
  | .atFatal => some { s with exit := some (.code 1) }
  | .atExitLog => some { s with exit := some (.code 0) }

/-- One statement of the server goroutine. -/
def stepServer (s : State) : Option State :=
  match s.server with
  | .atListenLog => some { s with server := .inListenAndServe }
  | .atServeFatal => some { s with exit := some (.code 1) }
  | _ => none

/-- The delivery of a signal: a relayed signal is put in `quit` when there is
room and dropped otherwise; any other delivery ends the process. -/
def deliver (s : State) (sig : Signal) : State :=
  if s.notified && relayed sig then
    match s.quit with
    | none => { s with quit := some sig }
    | some _ => s
  else { s with exit := some (.killed sig) }

/-- The step function of the process; `none` when the move is not enabled. No
move is enabled once the process has ended. -/
def step (s : State) (a : Action) : Option State :=
  if s.exit.isSome then none
  else
    match a with
    | .mainStep => stepMain s
    | .drained => if s.main = .inShutdown then some { s with main := .atExitLog } else none
    | .deadlineExceeded => if s.main = .inShutdown then some { s with main := .atFatal } else none
    | .serverStep => stepServer s
    | .listenError =>
      if s.server = .inListenAndServe then some { s with server := .atServeFatal } else none
    | .serverClosed =>
      if s.server = .inListenAndServe ∧ s.shutdownCalled = true then
        some { s with server := .finished }
      else none
    | .signal sig => some (deliver s sig)

/-- The state reached by a sequence of moves, when each is enabled in turn. -/
def run (s : State) : List Action → Option State
  | [] => some s
  | a :: rest => (step s a).bind (fun s' => run s' rest)

/-- The lifecycle states of the server. -/
inductive Lifecycle where
  | Initializing | Serving | Draining | Stopped
  deriving DecidableEq, Repr

/-- The position of a lifecycle state in `Initializing, Serving, Draining, Stopped`. -/
def Lifecycle.rank : Lifecycle → Nat
  | .Initializing => 0
  | .Serving => 1
  | .Draining => 2
  | .Stopped => 3

/-- The lifecycle state that follows, if any. -/
def Lifecycle.next : Lifecycle → Option Lifecycle
  | .Initializing => some .Serving
  | .Serving => some .Draining
  | .Draining => some .Stopped
  | .Stopped => none

/-- The lifecycle state a process state is in: `Initializing` until the `go`
statement has run, `Serving` until `srv.Shutdown` is called, `Draining` while
that call is running, `Stopped` once it has returned or the process has ended. -/
def phase (s : State) : Lifecycle :=
  if s.exit.isSome then .Stopped
  else
    match s.main with
    | .atStart | .atGo => .Initializing
    | .atNotify | .atRecv | .atCtx | .atShutdown => .Serving
    | .inShutdown => .Draining
    | .atFatal | .atExitLog => .Stopped

/-! ## The claim about log events, as stated -/

/-- An event carrying the method, the path and the remote address of `r`. -/
def carriesRequest (e : Entry) (r : Request) : Prop :=
  (utf8 "method", FieldValue.str r.Method) ∈ e.fields ∧
  (utf8 "path", FieldValue.str r.Path) ∈ e.fields ∧
  (utf8 "remote", FieldValue.str r.RemoteAddr) ∈ e.fields

instance (e : Entry) (r : Request) : Decidable (carriesRequest e r) := by
  unfold carriesRequest; infer_instance

/-- A handler call that wrote exactly one event, carrying the request's
method, path and remote address. -/
def emitsOneRequestEvent (before after : Logger) (r : Request) : Prop :=
  ∃ e, after.written = before.written ++ [e] ∧ carriesRequest e r

/-! ## The invariant of the lifecycle -/

/-- The invariant of the process along a trace `tr` of moves made so far. -/
def LifecycleInv (tr : List Action) (s : State) : Prop :=
  (∀ sig, s.quit = some sig → relayed sig = true ∧ Action.signal sig ∈ tr) ∧
  (∀ sig, s.received = some sig → relayed sig = true ∧ Action.signal sig ∈ tr) ∧
  (s.main ∈ [MainPc.atCtx, .atShutdown, .inShutdown, .atFatal, .atExitLog] →
    s.received.isSome = true) ∧
  (s.shutdownCalled = true ↔ s.main ∈ [MainPc.inShutdown, .atFatal, .atExitLog]) ∧
  (s.main ∈ [MainPc.atShutdown, .inShutdown, .atFatal, .atExitLog] → s.deadline = some 30)

/-! # Theorems -/

/-! ## UTF-8 -/

theorem runeLen_le_length (s : List Nat) : runeLen s ≤ s.length := by
  match s with
  | [] => simp [runeLen]
  | [b0] =>
    simp only [runeLen, List.length_singleton]
    split_ifs <;> omega
  | [b0, b1] =>
    simp only [runeLen, List.length_cons, List.length_nil]
    split_ifs <;> omega
  | [b0, b1, b2] =>
    simp only [runeLen, List.length_cons, List.length_nil]
    split_ifs <;> omega
  | b0 :: b1 :: b2 :: b3 :: rest =>
    simp only [runeLen, List.length_cons]
    split_ifs <;> omega

theorem runeLen_append (s t : List Nat) (n : Nat) (h : runeLen s = n + 1) :
    runeLen (s ++ t) = n + 1 := by
  match s with
  | [] => simp [runeLen] at h
  | [b0] =>
    simp only [runeLen] at h
    rcases t with _ | ⟨t0, _ | ⟨t1, _ | ⟨t2, t'⟩⟩⟩ <;>
      simp only [List.singleton_append, List.append_nil, runeLen] <;>
      split_ifs at h ⊢ <;> omega
  | [b0, b1] =>
    simp only [runeLen] at h
    rcases t with _ | ⟨t0, _ | ⟨t1, t'⟩⟩ <;>
      simp only [List.cons_append, List.nil_append, List.append_nil, runeLen] <;>
      split_ifs at h ⊢ <;> omega
  | [b0, b1, b2] =>
    simp only [runeLen] at h
    rcases t with _ | ⟨t0, t'⟩ <;>
      simp only [List.cons_append, List.nil_append, List.append_nil, runeLen] <;>
      split_ifs at h ⊢ <;> omega
  | b0 :: b1 :: b2 :: b3 :: rest =>
    simpa only [runeLen, List.cons_append] using h

theorem runeLen_ascii (b : Nat) (rest : List Nat) (h : b < 128) : runeLen (b :: rest) = 1 := by
  simp [runeLen, h]

theorem replaceInvalid_of_runeLen (b : Nat) (rest : List Nat) (n : Nat)
    (h : runeLen (b :: rest) = n + 1) :
    replaceInvalid 0 (b :: rest) = b :: replaceInvalid n rest := by
  simp only [replaceInvalid, h]

theorem validFrom_of_runeLen (b : Nat) (rest : List Nat) (n : Nat)
    (h : runeLen (b :: rest) = n + 1) :
    validFrom 0 (b :: rest) = validFrom n rest := by
  simp only [validFrom, h]

theorem replaceInvalid_valid_append (s : List Nat) :
    ∀ (k : Nat) (t : List Nat), k ≤ s.length → validFrom k s = true →
      replaceInvalid k (s ++ t) = s ++ replaceInvalid 0 t := by
  induction s with
  | nil =>
    intro k t hk _
    have : k = 0 := by simpa using hk
    subst this
    rfl
  | cons b rest ih =>
    intro k t hk hv
    cases k with
    | succ k =>
      simp only [List.cons_append, replaceInvalid, List.cons.injEq, true_and]
      simp only [validFrom] at hv
      exact ih k t (by simpa using hk) hv
    | zero =>
      simp only [validFrom] at hv
      cases hn : runeLen (b :: rest) with
      | zero => rw [hn] at hv; simp at hv
      | succ n =>
        rw [hn] at hv
        simp only at hv
        have hle := runeLen_le_length (b :: rest)
        rw [hn] at hle
        have happ := runeLen_append (b :: rest) t n hn
        rw [List.cons_append] at happ
        rw [List.cons_append, replaceInvalid_of_runeLen b (rest ++ t) n happ,
          ih n t (by simpa using hle) hv]
        rfl

theorem jsonString_valid_append (s t : GoString) (h : utf8Valid s = true) :
    jsonString (s ++ t) = s ++ jsonString t :=
  replaceInvalid_valid_append s 0 t (Nat.zero_le _) h

theorem jsonString_valid (s : GoString) (h : utf8Valid s = true) : jsonString s = s := by
  have := jsonString_valid_append s [] h
  simpa [jsonString, replaceInvalid] using this

theorem validFrom_ascii_append (p : List Nat) (hp : ∀ b ∈ p, b < 128) (t : List Nat) :
    validFrom 0 (p ++ t) = validFrom 0 t := by
  induction p with
  | nil => rfl
  | cons b rest ih =>
    have hb : b < 128 := hp b (List.mem_cons_self _ _)
    rw [List.cons_append, validFrom_of_runeLen b (rest ++ t) 0 (runeLen_ascii b _ hb)]
    exact ih (fun c hc => hp c (List.mem_cons_of_mem _ hc))

/-! ## The digits `Duration.String` prints -/

theorem isDigit_iff (c : Nat) : isDigit c = true ↔ 48 ≤ c ∧ c ≤ 57 := by
  simp [isDigit]

theorem digitsVal_snoc (ds : List Nat) (c : Nat) :
    digitsVal (ds ++ [c]) = 10 * digitsVal ds + (c - 48) := by
  simp [digitsVal, List.foldl_append]

theorem fmtIntLoop_spec (fuel : Nat) :
    ∀ (buf : List Nat) (v : Nat),
      ∃ ds, fmtIntLoop fuel buf v = ds ++ buf ∧ (∀ c ∈ ds, isDigit c = true) ∧
        (v < 10 ^ fuel → digitsVal ds = v) ∧ (0 < v → 0 < fuel → ds ≠ []) := by
  induction fuel with
  | zero =>
    intro buf v
    refine ⟨[], rfl, by simp, ?_, by simp⟩
    intro hv
    simp at hv
    simp [digitsVal, hv]
  | succ fuel ih =>
    intro buf v
    by_cases hv : v = 0
    · subst hv
      exact ⟨[], by simp [fmtIntLoop], by simp, by simp [digitsVal], by simp⟩
    · obtain ⟨ds, h1, h2, h3, -⟩ := ih ((v % 10 + 48) :: buf) (v / 10)
      refine ⟨ds ++ [v % 10 + 48], ?_, ?_, ?_, by simp⟩
      · simp [fmtIntLoop, hv, h1]
      · intro c hc
        rcases List.mem_append.mp hc with hc | hc
        · exact h2 c hc
        · simp only [List.mem_singleton] at hc
          rw [isDigit_iff]; omega
      · intro hlt
        have : v / 10 < 10 ^ fuel := by
          rw [pow_succ] at hlt
          omega
        rw [digitsVal_snoc, h3 this]
        omega

theorem fmtInt_spec (buf : List Nat) (v : Nat) :
    ∃ ds, fmtInt buf v = ds ++ buf ∧ (∀ c ∈ ds, isDigit c = true) ∧ ds ≠ [] ∧
      (v < 10 ^ 20 → digitsVal ds = v) := by
  by_cases hv : v = 0
  · subst hv
    exact ⟨[48], by simp [fmtInt], by simp [isDigit], by simp, by simp [digitsVal]⟩
  · obtain ⟨ds, h1, h2, h3, h4⟩ := fmtIntLoop_spec 20 buf v
    exact ⟨ds, by simp [fmtInt, hv, h1], h2, h4 (by omega) (by omega), h3⟩

theorem fmtFracLoop_spec (n : Nat) :
    ∀ (buf : List Nat) (v : Nat) (pr : Bool),
      ∃ ds, (fmtFracLoop n (buf, v, pr)).1 = ds ++ buf ∧
        (∀ c ∈ ds, isDigit c = true) ∧
        (fmtFracLoop n (buf, v, pr)).2.1 = v / 10 ^ n ∧
        (fmtFracLoop n (buf, v, pr)).2.2 = (pr || decide (ds ≠ [])) ∧
        ds.length ≤ n ∧ (pr = true → ds.length = n) ∧
        digitsVal ds * 10 ^ (n - ds.length) = v % 10 ^ n := by
  induction n with
  | zero =>
    intro buf v pr
    exact ⟨[], by simp [fmtFracLoop], by simp, by simp [fmtFracLoop], by simp [fmtFracLoop],
      by simp, by simp, by simp [digitsVal, Nat.mod_one]⟩
  | succ n ih =>
    intro buf v pr
    by_cases hp : (pr || v % 10 != 0) = true
    · obtain ⟨ds, h1, h2, h3, h4, h5, h6, h7⟩ := ih ((v % 10 + 48) :: buf) (v / 10) true
      have hlen : ds.length = n := h6 rfl
      have hstep : fmtFracLoop (n + 1) (buf, v, pr) =
          fmtFracLoop n ((v % 10 + 48) :: buf, v / 10, true) := by
        simp only [fmtFracLoop, hp, if_true]
      refine ⟨ds ++ [v % 10 + 48], ?_, ?_, ?_, ?_, ?_, ?_, ?_⟩
      · rw [hstep, h1]; simp
      · intro c hc
        rcases List.mem_append.mp hc with hc | hc
        · exact h2 c hc
        · simp only [List.mem_singleton] at hc
          rw [isDigit_iff]; omega
      · rw [hstep, h3, Nat.div_div_eq_div_mul, pow_succ, Nat.mul_comm]
      · rw [hstep, h4]; simp
      · simp [hlen]
      · intro _; simp [hlen]
      · rw [hlen] at h7
        simp only [Nat.sub_self, pow_zero, Nat.mul_one] at h7
        rw [digitsVal_snoc, h7]
        simp only [List.length_append, List.length_singleton, hlen, Nat.sub_self, pow_zero,
          Nat.mul_one]
        rw [pow_succ, Nat.mul_comm (10 ^ n) 10, Nat.mod_mul]
        omega
    · have hpr : pr = false := by
        cases pr <;> simp_all
      have hd : v % 10 = 0 := by
        subst hpr; simpa using hp
      obtain ⟨ds, h1, h2, h3, h4, h5, h6, h7⟩ := ih buf (v / 10) false
      have hstep : fmtFracLoop (n + 1) (buf, v, pr) = fmtFracLoop n (buf, v / 10, false) := by
        subst hpr
        simp [fmtFracLoop, hd]
      refine ⟨ds, ?_, h2, ?_, ?_, by omega, ?_, ?_⟩
      · rw [hstep, h1]
      · rw [hstep, h3, Nat.div_div_eq_div_mul, pow_succ, Nat.mul_comm]
      · rw [hstep, h4, hpr]
      · intro h; rw [hpr] at h; cases h
      · have e : n + 1 - ds.length = (n - ds.length) + 1 := by omega
        rw [e, pow_succ, ← Nat.mul_assoc, h7, pow_succ, Nat.mul_comm (10 ^ n) 10, Nat.mod_mul]
        omega

theorem readNat_digits (ds : List Nat) :
    ∀ (acc : Nat) (rest : List Nat), (∀ c ∈ ds, isDigit c = true) → headNotDigit rest →
      readNat acc (ds ++ rest) = (ds.foldl (fun a c => 10 * a + (c - 48)) acc, rest) := by
  induction ds with
  | nil =>
    intro acc rest _ hr
    cases rest with
    | nil => rfl
    | cons c cs =>
      simp only [headNotDigit] at hr
      simp [readNat, hr]
  | cons d ds ih =>
    intro acc rest hds hr
    have hd : isDigit d = true := hds d (List.mem_cons_self _ _)
    simp only [List.cons_append, readNat, hd, if_true, List.foldl_cons]
    exact ih _ rest (fun c hc => hds c (List.mem_cons_of_mem _ hc)) hr

theorem readFracDigits_cons (f scale c : Nat) (cs : List Nat) (h : isDigit c = true) :
    readFracDigits f scale (c :: cs) = readFracDigits (10 * f + (c - 48)) (10 * scale) cs := by
  simp only [readFracDigits, h, if_true]

theorem readFracDigits_digits (ds : List Nat) :
    ∀ (f scale : Nat) (rest : List Nat), (∀ c ∈ ds, isDigit c = true) → headNotDigit rest →
      readFracDigits f scale (ds ++ rest) =
        (ds.foldl (fun a c => 10 * a + (c - 48)) f, scale * 10 ^ ds.length, rest) := by
  induction ds with
  | nil =>
    intro f scale rest _ hr
    cases rest with
    | nil => simp [readFracDigits]
    | cons c cs =>
      simp only [headNotDigit] at hr
      simp [readFracDigits, hr]
  | cons d ds ih =>
    intro f scale rest hds hr
    have hd : isDigit d = true := hds d (List.mem_cons_self _ _)
    rw [List.cons_append, readFracDigits_cons _ _ _ _ hd,
      ih _ _ rest (fun c hc => hds c (List.mem_cons_of_mem _ hc)) hr, List.length_cons,
      pow_succ, List.foldl_cons]
    simp only [Prod.mk.injEq, true_and, and_true]
    ring

/-- The fraction printed by `fmtFrac` in front of a unit reads back as the low
`prec` digits of `v`. -/
theorem fmtFrac_read (buf : List Nat) (v prec : Nat) (hb : headNotDigit buf)
    (hdot : ∀ cs, buf ≠ 46 :: cs) :
    (fmtFrac buf v prec).2 = v / 10 ^ prec ∧
    headNotDigit (fmtFrac buf v prec).1 ∧
    ∃ f scale, readFrac (fmtFrac buf v prec).1 = (f, scale, buf) ∧
      f * 10 ^ prec / scale = v % 10 ^ prec := by
  obtain ⟨ds, h1, h2, h3, h4, h5, -, h7⟩ := fmtFracLoop_spec prec buf v false
  simp only [Bool.false_or] at h4
  by_cases hds : ds = []
  · subst hds
    have hpr : (fmtFracLoop prec (buf, v, false)).2.2 = false := by rw [h4]; simp
    have h1' : (fmtFrac buf v prec).1 = buf := by
      simp only [fmtFrac, hpr]; simpa using h1
    refine ⟨by simp [fmtFrac, h3], by rw [h1']; exact hb, 0, 1, ?_, ?_⟩
    · rw [h1']
      cases buf with
      | nil => rfl
      | cons c cs =>
        have : c ≠ 46 := fun hc => hdot cs (by rw [hc])
        simp [readFrac, this]
    · simp [digitsVal] at h7
      simp [← h7]
  · have hpr : (fmtFracLoop prec (buf, v, false)).2.2 = true := by rw [h4]; simp [hds]
    have h1' : (fmtFrac buf v prec).1 = 46 :: (ds ++ buf) := by
      simp only [fmtFrac, hpr, if_true, h1]
    refine ⟨by simp [fmtFrac, h3], by rw [h1']; simp [headNotDigit, isDigit], digitsVal ds,
      10 ^ ds.length, ?_, ?_⟩
    · rw [h1']
      simp only [readFrac, if_true]
      rw [readFracDigits_digits ds 0 1 buf h2 hb]
      simp [digitsVal]
    · have e : 10 ^ prec = 10 ^ (prec - ds.length) * 10 ^ ds.length := by
        rw [← pow_add]; congr 1; omega
      have e' : digitsVal ds * 10 ^ prec / 10 ^ ds.length =
          digitsVal ds * 10 ^ (prec - ds.length) := by
        rw [e, ← Nat.mul_assoc, Nat.mul_div_cancel _ (by positivity)]
      rw [e', h7]

/-- One round of `readTerms`: a number, an optional fraction and a unit. -/
theorem readTerms_step (fuel total : Nat) (ds F : List Nat)
    (hds : ∀ c ∈ ds, isDigit c = true) (hne : ds ≠ []) (hF : headNotDigit F)
    (f scale : Nat) (B : List Nat) (hfrac : readFrac F = (f, scale, B))
    (unit : Nat) (rest : List Nat) (hunit : readUnit B = some (unit, rest)) :
    readTerms (fuel + 1) total (ds ++ F) =
      readTerms fuel (total + digitsVal ds * unit + f * unit / scale) rest := by
  cases ds with
  | nil => exact absurd rfl hne
  | cons c cs =>
    have hn : readNat 0 (c :: cs ++ F) = (digitsVal (c :: cs), F) :=
      readNat_digits (c :: cs) 0 F hds hF
    rw [List.cons_append] at hn ⊢
    simp only [readTerms, hn, hfrac, hunit]

theorem fmtInt_head (F : List Nat) (x : Nat) :
    ∃ c cs, fmtInt F x = c :: cs ∧ isDigit c = true ∧ F.length + 1 ≤ (fmtInt F x).length := by
  obtain ⟨ds, h1, h2, h3, -⟩ := fmtInt_spec F x
  cases ds with
  | nil => exact absurd rfl h3
  | cons c cs =>
    exact ⟨c, cs ++ F, by rw [h1]; rfl, h2 c (List.mem_cons_self _ _), by
      rw [h1]; simp⟩

/-- A term printed by `fmtInt` in front of a fraction and a unit is read in one
round of `readTerms`. -/
theorem read_fmtInt_term (fuel total x : Nat) (F : List Nat) (hx : x < 10 ^ 20)
    (hF : headNotDigit F) (f scale : Nat) (B : List Nat)
    (hfrac : readFrac F = (f, scale, B)) (unit : Nat) (rest : List Nat)
    (hunit : readUnit B = some (unit, rest)) :
    readTerms (fuel + 1) total (fmtInt F x) =
      readTerms fuel (total + x * unit + f * unit / scale) rest := by
  obtain ⟨ds, h1, h2, h3, h4⟩ := fmtInt_spec F x
  rw [h1, readTerms_step fuel total ds F h2 h3 hF f scale B hfrac unit rest hunit, h4 hx]

theorem readTerms_nil (fuel total : Nat) : readTerms fuel total [] = some total := by
  cases fuel <;> rfl

/-- The text `Duration.String` prints for a non-negative duration. -/
theorem durationString_ofNat (u : Nat) :
    durationString (u : Int) =
      if u < 1000000000 then
        if u = 0 then [48, 115]
        else if u < 1000 then fmtInt (fmtFrac [110, 115] u 0).1 (fmtFrac [110, 115] u 0).2
        else if u < 1000000 then
          fmtInt (fmtFrac [0xC2, 0xB5, 115] u 3).1 (fmtFrac [0xC2, 0xB5, 115] u 3).2
        else fmtInt (fmtFrac [109, 115] u 6).1 (fmtFrac [109, 115] u 6).2
      else
        if (fmtFrac [115] u 9).2 / 60 > 0 then
          if (fmtFrac [115] u 9).2 / 60 / 60 > 0 then
            fmtInt (104 :: fmtInt (109 :: fmtInt (fmtFrac [115] u 9).1
              ((fmtFrac [115] u 9).2 % 60)) ((fmtFrac [115] u 9).2 / 60 % 60))
              ((fmtFrac [115] u 9).2 / 60 / 60)
          else
            fmtInt (109 :: fmtInt (fmtFrac [115] u 9).1 ((fmtFrac [115] u 9).2 % 60))
              ((fmtFrac [115] u 9).2 / 60 % 60)
        else fmtInt (fmtFrac [115] u 9).1 ((fmtFrac [115] u 9).2 % 60) := by
  have hneg : ¬ ((u : Int) < 0) := by omega
  simp only [durationString, Int.natAbs_ofNat, hneg, if_false]

/-- A term with a fraction that ends the string. -/
theorem read_last_term (fuel total x v prec : Nat) (B : List Nat) (hx : x < 10 ^ 20)
    (hb : headNotDigit B) (hdot : ∀ cs, B ≠ 46 :: cs)
    (hunit : readUnit B = some (10 ^ prec, [])) :
    readTerms (fuel + 1) total (fmtInt (fmtFrac B v prec).1 x) =
      some (total + x * 10 ^ prec + v % 10 ^ prec) := by
  obtain ⟨-, hF, f, scale, hfrac, hval⟩ := fmtFrac_read B v prec hb hdot
  rw [read_fmtInt_term fuel total x _ hx hF f scale B hfrac (10 ^ prec) [] hunit,
    readTerms_nil, hval]

/-- A duration printed as one term. -/
theorem read_single (u prec : Nat) (B : List Nat) (hu : u < 10 ^ 20)
    (hb : headNotDigit B) (hdot : ∀ cs, B ≠ 46 :: cs)
    (hunit : readUnit B = some (10 ^ prec, [])) :
    ∃ c cs, fmtInt (fmtFrac B u prec).1 (fmtFrac B u prec).2 = c :: cs ∧
      isDigit c = true ∧ readTerms (c :: cs).length 0 (c :: cs) = some u := by
  obtain ⟨c, cs, h1, h2, -⟩ := fmtInt_head (fmtFrac B u prec).1 (fmtFrac B u prec).2
  refine ⟨c, cs, h1, h2, ?_⟩
  have hx : (fmtFrac B u prec).2 = u / 10 ^ prec := (fmtFrac_read B u prec hb hdot).1
  have hlt : u / 10 ^ prec < 10 ^ 20 := lt_of_le_of_lt (Nat.div_le_self _ _) hu
  rw [← h1, h1, List.length_cons, ← h1, hx,
    read_last_term cs.length 0 (u / 10 ^ prec) u prec B hlt hb hdot hunit,
    Nat.zero_add, Nat.div_add_mod']

theorem readUnit_minutes (c : Nat) (cs : List Nat) (h : isDigit c = true) :
    readUnit (109 :: c :: cs) = some (60000000000, c :: cs) := by
  have hc : c ≠ 115 := by
    rw [isDigit_iff] at h; omega
  unfold readUnit
  split <;> simp_all

/-- The text printed for a non-negative duration starts with a digit and reads
back as the duration. -/
theorem read_durationString_ofNat (u : Nat) (hu : u < 10 ^ 20) :
    ∃ c cs, durationString (u : Int) = c :: cs ∧ isDigit c = true ∧
      readTerms (c :: cs).length 0 (c :: cs) = some u := by
  rw [durationString_ofNat]
  by_cases h9 : u < 1000000000
  · rw [if_pos h9]
    by_cases h0 : u = 0
    · subst h0
      exact ⟨48, [115], rfl, by decide, by decide⟩
    · rw [if_neg h0]
      by_cases h3 : u < 1000
      · rw [if_pos h3]
        exact read_single u 0 [110, 115] hu (by simp [headNotDigit, isDigit]) (by simp) (by decide)
      · rw [if_neg h3]
        by_cases h6 : u < 1000000
        · rw [if_pos h6]
          exact read_single u 3 [0xC2, 0xB5, 115] hu (by simp [headNotDigit, isDigit]) (by simp) (by decide)
        · rw [if_neg h6]
          exact read_single u 6 [109, 115] hu (by simp [headNotDigit, isDigit]) (by simp) (by decide)
  · rw [if_neg h9]
    obtain ⟨hsec, hF, f, scale, hfrac, hval⟩ :=
      fmtFrac_read [115] u 9 (by simp [headNotDigit, isDigit]) (by simp)
    have hunit : readUnit [115] = some (10 ^ 9, []) := by decide
    generalize hS : (fmtFrac [115] u 9).2 = sec at hsec ⊢
    generalize hFF : (fmtFrac [115] u 9).1 = F at hF hfrac ⊢
    have hsec9 : sec * 1000000000 + u % 1000000000 = u := by
      rw [hsec]; norm_num; omega
    have hseclt : sec < 10 ^ 20 := by
      rw [hsec]; exact lt_of_le_of_lt (Nat.div_le_self _ _) hu
    norm_num at hval hseclt hu
    -- the seconds term, which ends the string
    have hlast : ∀ fuel total, readTerms (fuel + 1) total (fmtInt F (sec % 60)) =
        some (total + sec % 60 * 1000000000 + u % 1000000000) := by
      intro fuel total
      rw [read_fmtInt_term fuel total (sec % 60) F (by omega) hF f scale [115] hfrac
        (10 ^ 9) [] hunit, readTerms_nil]
      norm_num
      exact hval
    obtain ⟨cS, csS, hS1, hS2, hS3⟩ := fmtInt_head F (sec % 60)
    by_cases hm : sec / 60 > 0
    · rw [if_pos hm]
      -- the minutes term
      have hmin : ∀ fuel total, readTerms (fuel + 2) total
          (fmtInt (109 :: fmtInt F (sec % 60)) (sec / 60 % 60)) =
          some (total + sec / 60 % 60 * 60000000000 + sec % 60 * 1000000000
            + u % 1000000000) := by
        intro fuel total
        rw [read_fmtInt_term (fuel + 1) total (sec / 60 % 60)
          (109 :: fmtInt F (sec % 60)) (by omega)
          (by simp [headNotDigit, isDigit]) 0 1 (109 :: fmtInt F (sec % 60))
          (by simp [readFrac]) 60000000000
          (fmtInt F (sec % 60)) (by rw [hS1]; exact readUnit_minutes cS csS hS2), hlast]
        simp
      obtain ⟨cM, csM, hM1, hM2, hM3⟩ :=
        fmtInt_head (109 :: fmtInt F (sec % 60)) (sec / 60 % 60)
      by_cases hh : sec / 60 / 60 > 0
      · rw [if_pos hh]
        obtain ⟨cH, csH, hH1, hH2, hH3⟩ :=
          fmtInt_head (104 :: fmtInt (109 :: fmtInt F (sec % 60)) (sec / 60 % 60))
            (sec / 60 / 60)
        refine ⟨cH, csH, hH1, hH2, ?_⟩
        have hlen : ∃ k, (cH :: csH).length = k + 3 := by
          refine ⟨(cH :: csH).length - 3, ?_⟩
          rw [← hH1]
          simp only [List.length_cons] at hH3 hM3 hS3 ⊢
          omega
        obtain ⟨k, hk⟩ := hlen
        rw [hk, ← hH1, read_fmtInt_term (k + 2) 0 (sec / 60 / 60)
          (104 :: fmtInt (109 :: fmtInt F (sec % 60)) (sec / 60 % 60)) (by omega)
          (by simp [headNotDigit, isDigit]) 0 1
          (104 :: fmtInt (109 :: fmtInt F (sec % 60)) (sec / 60 % 60))
          (by simp [readFrac]) 3600000000000
          (fmtInt (109 :: fmtInt F (sec % 60)) (sec / 60 % 60)) (by rfl), hmin]
        congr 1
        omega
      · rw [if_neg hh]
        refine ⟨cM, csM, hM1, hM2, ?_⟩
        have hlen : ∃ k, (cM :: csM).length = k + 2 := by
          refine ⟨(cM :: csM).length - 2, ?_⟩
          rw [← hM1]
          simp only [List.length_cons] at hM3 hS3 ⊢
          omega
        obtain ⟨k, hk⟩ := hlen
        rw [hk, ← hM1, hmin]
        congr 1
        omega
    · rw [if_neg hm]
      refine ⟨cS, csS, hS1, hS2, ?_⟩
      rw [List.length_cons, ← hS1, hlast]
      congr 1
      omega

theorem durationString_neg (d : Int) (h : d < 0) :
    durationString d = 45 :: durationString (d.natAbs : Int) := by
  have hneg : ¬ ((d.natAbs : Int) < 0) := by omega
  simp only [durationString, h, if_true, Int.natAbs_ofNat, hneg, if_false]

theorem parseDuration_digit (c : Nat) (cs : List Nat) (h : isDigit c = true) :
    parseDuration (c :: cs) =
      (readTerms (c :: cs).length 0 (c :: cs)).map (fun n => (n : Int)) := by
  have hc : c ≠ 45 := by
    rw [isDigit_iff] at h; omega
  unfold parseDuration
  split
  · simp_all
  · simp_all
  · simp_all

/-- Reading the text `Duration.String` prints gives the duration back. -/
theorem parseDuration_durationString (d : Int) (h : d.natAbs < 10 ^ 20) :
    parseDuration (durationString d) = some d := by
  obtain ⟨c, cs, h1, h2, h3⟩ := read_durationString_ofNat d.natAbs h
  by_cases hd : d < 0
  · rw [durationString_neg d hd, h1]
    have : parseDuration (45 :: c :: cs) =
        (readTerms (c :: cs).length 0 (c :: cs)).map (fun n => -(n : Int)) := rfl
    rw [this, h3]
    show some (-(d.natAbs : Int)) = some d
    congr 1
    omega
  · have e : d = (d.natAbs : Int) := by omega
    rw [e, h1, parseDuration_digit c cs h2, h3]
    simp

/-- Two durations with the same printed text are the same duration. -/
theorem durationString_injective (d e : Int) (hd : d.natAbs < 10 ^ 20)
    (he : e.natAbs < 10 ^ 20) (h : durationString d = durationString e) : d = e := by
  have h1 := parseDuration_durationString d hd
  rw [h, parseDuration_durationString e he] at h1
  exact (Option.some.inj h1).symm

/-! ## The printed duration is valid UTF-8 -/

theorem utf8Valid_ascii_append (p t : List Nat) (hp : ∀ b ∈ p, b < 128)
    (ht : utf8Valid t = true) : utf8Valid (p ++ t) = true := by
  unfold utf8Valid at ht ⊢
  rw [validFrom_ascii_append p hp t, ht]

theorem utf8Valid_cons (b : Nat) (t : List Nat) (hb : b < 128) (ht : utf8Valid t = true) :
    utf8Valid (b :: t) = true :=
  utf8Valid_ascii_append [b] t (by simpa using hb) ht

theorem digits_ascii (ds : List Nat) (h : ∀ c ∈ ds, isDigit c = true) : ∀ b ∈ ds, b < 128 := by
  intro b hb
  have := (isDigit_iff b).mp (h b hb)
  omega

theorem utf8Valid_fmtInt (buf : List Nat) (v : Nat) (h : utf8Valid buf = true) :
    utf8Valid (fmtInt buf v) = true := by
  obtain ⟨ds, h1, h2, -, -⟩ := fmtInt_spec buf v
  rw [h1]
  exact utf8Valid_ascii_append ds buf (digits_ascii ds h2) h

theorem utf8Valid_fmtFrac (buf : List Nat) (v prec : Nat) (h : utf8Valid buf = true) :
    utf8Valid (fmtFrac buf v prec).1 = true := by
  obtain ⟨ds, h1, h2, -, -, -, -, -⟩ := fmtFracLoop_spec prec buf v false
  simp only [fmtFrac]
  split
  · rw [h1]
    exact utf8Valid_cons 46 _ (by decide) (utf8Valid_ascii_append ds buf (digits_ascii ds h2) h)
  · rw [h1]
    exact utf8Valid_ascii_append ds buf (digits_ascii ds h2) h

/-- The text `Duration.String` prints is valid UTF-8, for every duration. -/
theorem utf8Valid_durationString (d : Int) : utf8Valid (durationString d) = true := by
  have key : ∀ u : Nat, utf8Valid (durationString (u : Int)) = true := by
    intro u
    rw [durationString_ofNat]
    split_ifs
    · decide
    · exact utf8Valid_fmtInt _ _ (utf8Valid_fmtFrac _ _ _ (by decide))
    · exact utf8Valid_fmtInt _ _ (utf8Valid_fmtFrac _ _ _ (by decide))
    · exact utf8Valid_fmtInt _ _ (utf8Valid_fmtFrac _ _ _ (by decide))
    · exact utf8Valid_fmtInt _ _ (utf8Valid_cons 104 _ (by decide)
        (utf8Valid_fmtInt _ _ (utf8Valid_cons 109 _ (by decide)
          (utf8Valid_fmtInt _ _ (utf8Valid_fmtFrac _ _ _ (by decide))))))
    · exact utf8Valid_fmtInt _ _ (utf8Valid_cons 109 _ (by decide)
          (utf8Valid_fmtInt _ _ (utf8Valid_fmtFrac _ _ _ (by decide))))
    · exact utf8Valid_fmtInt _ _ (utf8Valid_fmtFrac _ _ _ (by decide))
  by_cases hd : d < 0
  · rw [durationString_neg d hd]
    exact utf8Valid_cons 45 _ (by decide) (key _)
  · have e : d = (d.natAbs : Int) := by omega
    rw [e]
    exact key _

theorem jsonString_durationString (d : Int) :
    jsonString (durationString d) = durationString d :=
  jsonString_valid _ (utf8Valid_durationString d)

/-! ## Literals through the JSON codec -/

theorem servicesSlice_json (startTime : Time) (clock : Clock) :
    (servicesSlice startTime clock).map ServiceStatus.json = servicesSlice startTime clock := by
  have e1 : jsonString (utf8 "api-server") = utf8 "api-server" := by decide
  have e2 : jsonString (utf8 "database") = utf8 "database" := by decide
  have e3 : jsonString (utf8 "cache") = utf8 "cache" := by decide
  have e4 : jsonString (utf8 "running") = utf8 "running" := by decide
  have e5 : jsonString (utf8 "48h30m") = utf8 "48h30m" := by decide
  have e6 : jsonString (utf8 "24h15m") = utf8 "24h15m" := by decide
  simp only [servicesSlice, List.map_cons, List.map_nil, ServiceStatus.json, e1, e2, e3, e4,
    e5, e6, jsonString_durationString]

theorem json_of_mem_servicesSlice (startTime : Time) (clock : Clock) (s : ServiceStatus)
    (h : s ∈ servicesSlice startTime clock) : s.json = s := by
  have hm := servicesSlice_json startTime clock
  have : s.json ∈ (servicesSlice startTime clock).map ServiceStatus.json :=
    List.mem_map_of_mem _ h
  simp only [servicesSlice, List.map_cons, List.map_nil, List.cons.injEq, and_true] at hm
  simp only [servicesSlice, List.mem_cons, List.mem_singleton, List.not_mem_nil,
    or_false] at h
  obtain ⟨h1, h2, h3⟩ := hm
  rcases h with h | h | h <;> subst h <;> assumption

theorem homeResponse_json (d : Int) :
    (Payload.stringMap
      [(utf8 "message", utf8 "Welcome to Go Service Monitor API"),
       (utf8 "version", utf8 "1.0.0"),
       (utf8 "uptime", durationString d)]).json =
    Payload.stringMap
      [(utf8 "message", utf8 "Welcome to Go Service Monitor API"),
       (utf8 "version", utf8 "1.0.0"),
       (utf8 "uptime", durationString d)] := by
  have e1 : jsonString (utf8 "message") = utf8 "message" := by decide
  have e2 : jsonString (utf8 "Welcome to Go Service Monitor API") =
      utf8 "Welcome to Go Service Monitor API" := by decide
  have e3 : jsonString (utf8 "version") = utf8 "version" := by decide
  have e4 : jsonString (utf8 "1.0.0") = utf8 "1.0.0" := by decide
  have e5 : jsonString (utf8 "uptime") = utf8 "uptime" := by decide
  simp only [Payload.json, List.map_cons, List.map_nil, e1, e2, e3, e4, e5,
    jsonString_durationString]

theorem healthResponse_json (t : Time) :
    (Payload.health { Status := utf8 "healthy", Timestamp := t, Version := utf8 "1.0.0" }).json =
    Payload.health { Status := utf8 "healthy", Timestamp := t, Version := utf8 "1.0.0" } := by
  have e1 : jsonString (utf8 "healthy") = utf8 "healthy" := by decide
  have e2 : jsonString (utf8 "1.0.0") = utf8 "1.0.0" := by decide
  simp only [Payload.json, HealthResponse.json, e1, e2]

/-- The error body as decoded: the key comes through, the message is passed
through `jsonString`; a name of valid UTF-8 comes through unchanged. -/
theorem errorResponse_json (name : GoString) :
    (Payload.stringMap [(utf8 "error", notFoundMessage name)]).json =
      Payload.stringMap [(utf8 "error", jsonString (notFoundMessage name))] := by
  have e1 : jsonString (utf8 "error") = utf8 "error" := by decide
  simp only [Payload.json, List.map_cons, List.map_nil, e1]

theorem jsonString_notFoundMessage (name : GoString) (h : utf8Valid name = true) :
    jsonString (notFoundMessage name) = notFoundMessage name := by
  unfold notFoundMessage
  rw [List.append_assoc, jsonString_valid_append _ _ (by decide),
    jsonString_valid_append _ _ h, jsonString_valid _ (by decide)]

/-! ## Lookup in the map literal -/

theorem servicesMap_lookup_seed (startTime : Time) (clock : Clock) (n : GoString)
    (h : n ∈ seedNames) :
    ∃ s, (servicesMap startTime clock).lookup n = some s ∧ s.Name = n ∧
      s ∈ servicesSlice startTime clock := by
  have d1 : (utf8 "database" == utf8 "api-server") = false := by decide
  have d2 : (utf8 "cache" == utf8 "api-server") = false := by decide
  have d3 : (utf8 "cache" == utf8 "database") = false := by decide
  simp only [seedNames, List.mem_cons, List.mem_singleton, List.not_mem_nil, or_false] at h
  rcases h with h | h | h <;> subst h <;>
    simp [servicesMap, servicesSlice, List.lookup, d1, d2, d3]

theorem servicesMap_lookup_other (startTime : Time) (clock : Clock) (n : GoString)
    (h : n ∉ seedNames) : (servicesMap startTime clock).lookup n = none := by
  simp only [seedNames, List.mem_cons, List.mem_singleton, List.not_mem_nil, or_false,
    not_or] at h
  obtain ⟨h1, h2, h3⟩ := h
  have e1 : (n == utf8 "api-server") = false := by simpa using h1
  have e2 : (n == utf8 "database") = false := by simpa using h2
  have e3 : (n == utf8 "cache") = false := by simpa using h3
  simp [servicesMap, List.lookup, e1, e2, e3]

/-! ## The two branches of `getServiceHandler` -/

theorem getServiceHandler_found (startTime : Time) (clock : Clock) (lg : Logger)
    (w : ResponseWriter) (r : Request) (s : ServiceStatus)
    (h : (servicesMap startTime clock).lookup (muxVar r (utf8 "name")) = some s) :
    getServiceHandler startTime clock lg w r =
      (((w.setHeader (utf8 "Content-Type") (utf8 "application/json")).encode (.service s)),
       lg.log .InfoLevel
         [(utf8 "service", .str (muxVar r (utf8 "name"))), (utf8 "status", .str s.Status)]
         (utf8 "Service status requested") (clock 4)) := by
  simp only [getServiceHandler, h]

theorem getServiceHandler_missing (startTime : Time) (clock : Clock) (lg : Logger)
    (w : ResponseWriter) (r : Request)
    (h : (servicesMap startTime clock).lookup (muxVar r (utf8 "name")) = none) :
    getServiceHandler startTime clock lg w r =
      ((((w.setHeader (utf8 "Content-Type") (utf8 "application/json")).writeHeader
            StatusNotFound).encode
          (.stringMap [(utf8 "error", notFoundMessage (muxVar r (utf8 "name")))])),
       lg.log .WarnLevel [(utf8 "service", .str (muxVar r (utf8 "name")))]
         (utf8 "Service not found") (clock 4)) := by
  simp only [getServiceHandler, h]

theorem fresh_encode (v : Payload) :
    (((ResponseWriter.fresh).setHeader (utf8 "Content-Type") (utf8 "application/json")).encode
        v) =
      { header := [(utf8 "Content-Type", utf8 "application/json")], status := some StatusOK,
        body := [v.json] } := by
  rfl

theorem fresh_writeHeader_encode (code : Nat) (v : Payload) :
    ((((ResponseWriter.fresh).setHeader (utf8 "Content-Type")
        (utf8 "application/json")).writeHeader code).encode v) =
      { header := [(utf8 "Content-Type", utf8 "application/json")], status := some code,
        body := [v.json] } := by
  rfl

theorem service_json (s : ServiceStatus) : (Payload.service s).json = Payload.service s.json :=
  rfl

theorem serviceList_json (l : List ServiceStatus) :
    (Payload.serviceList l).json = Payload.serviceList (l.map ServiceStatus.json) :=
  rfl

/-! ## Get service by name -/

/-- C1: for every name of the seed set and every clock, `getServiceHandler`
called with that name as path parameter answers with the success status (no
404 is written) and one `ServiceStatus` whose name is the requested name. -/
theorem getServiceHandler_seed_ok (startTime : Time) (clock : Clock) (lg : Logger)
    (r : Request) (h : muxVar r (utf8 "name") ∈ seedNames) :
    (getServiceHandler startTime clock lg .fresh r).1.status = some StatusOK ∧
    (getServiceHandler startTime clock lg .fresh r).1.status ≠ some StatusNotFound ∧
    ∃ s, (getServiceHandler startTime clock lg .fresh r).1.body = [Payload.service s] ∧
      s.Name = muxVar r (utf8 "name") := by
  obtain ⟨s, hs, hn, hmem⟩ := servicesMap_lookup_seed startTime clock _ h
  rw [getServiceHandler_found startTime clock lg .fresh r s hs, fresh_encode, service_json,
    json_of_mem_servicesSlice startTime clock s hmem]
  exact ⟨rfl, by simp [StatusOK, StatusNotFound], s, rfl, hn⟩

theorem getServiceHandler_seed_ok_witness :
    muxVar ⟨utf8 "GET", utf8 "/api/services/cache", utf8 "10.0.0.7:4711",
        [(utf8 "name", utf8 "cache")]⟩ (utf8 "name") ∈ seedNames ∧
    (getServiceHandler 0 (fun k => 100 + k) Logger.std .fresh
        ⟨utf8 "GET", utf8 "/api/services/cache", utf8 "10.0.0.7:4711",
          [(utf8 "name", utf8 "cache")]⟩).1.status
      = some StatusOK :=
  ⟨by decide,
   (getServiceHandler_seed_ok 0 (fun k => 100 + k) Logger.std
      ⟨utf8 "GET", utf8 "/api/services/cache", utf8 "10.0.0.7:4711",
        [(utf8 "name", utf8 "cache")]⟩ (by decide)).1⟩

/-- C2, as the code has it: for every name that is not exactly one of the three
seed names, `getServiceHandler` answers with status 404 and no service record;
the body is the map whose `error` entry is the message
`Service '<name>' not found` as the JSON codec delivers it, which is the
message with the name unchanged whenever the name is valid UTF-8. -/
theorem getServiceHandler_unknown_404 (startTime : Time) (clock : Clock) (lg : Logger)
    (r : Request) (h : muxVar r (utf8 "name") ∉ seedNames) :
    (getServiceHandler startTime clock lg .fresh r).1.status = some StatusNotFound ∧
    (getServiceHandler startTime clock lg .fresh r).1.body =
      [Payload.stringMap
        [(utf8 "error", jsonString (notFoundMessage (muxVar r (utf8 "name"))))]] ∧
    (∀ s, Payload.service s ∉ (getServiceHandler startTime clock lg .fresh r).1.body) ∧
    (utf8Valid (muxVar r (utf8 "name")) = true →
      (getServiceHandler startTime clock lg .fresh r).1.body =
        [Payload.stringMap
          [(utf8 "error",
            utf8 "Service '" ++ muxVar r (utf8 "name") ++ utf8 "' not found")]]) := by
  have hl := servicesMap_lookup_other startTime clock _ h
  rw [getServiceHandler_missing startTime clock lg .fresh r hl, fresh_writeHeader_encode,
    errorResponse_json]
  refine ⟨rfl, rfl, ?_, ?_⟩
  · intro s hs
    simp at hs
  · intro hv
    show [Payload.stringMap
        [(utf8 "error", jsonString (notFoundMessage (muxVar r (utf8 "name"))))]] = _
    rw [jsonString_notFoundMessage _ hv]
    rfl

theorem getServiceHandler_unknown_404_witness :
    muxVar ⟨utf8 "GET", utf8 "/api/services/Database", utf8 "10.0.0.7:4711",
        [(utf8 "name", utf8 "Database")]⟩ (utf8 "name") ∉ seedNames ∧
    utf8Valid (utf8 "Database") = true ∧
    (getServiceHandler 0 (fun k => 100 + k) Logger.std .fresh
        ⟨utf8 "GET", utf8 "/api/services/Database", utf8 "10.0.0.7:4711",
          [(utf8 "name", utf8 "Database")]⟩).1.body
      = [Payload.stringMap [(utf8 "error", utf8 "Service 'Database' not found")]] :=
  ⟨by decide, by decide,
   (getServiceHandler_unknown_404 0 (fun k => 100 + k) Logger.std
      ⟨utf8 "GET", utf8 "/api/services/Database", utf8 "10.0.0.7:4711",
        [(utf8 "name", utf8 "Database")]⟩
      (by decide)).2.2.2 (by decide)⟩

/-- C2 as stated fails: the name with the bytes `61 FF 62`, which the router
delivers for the path `/api/services/a%FFb`, is no seed name, and the body of
the 404 answer holds `Service 'a<U+FFFD>b' not found`, the byte `FF` replaced by
`U+FFFD` (`EF BF BD`), not the name unchanged. -/
theorem getServiceHandler_unknown_404_counterexample :
    muxVar ⟨utf8 "GET", utf8 "/api/services/a%FFb", utf8 "10.0.0.7:4711",
        [(utf8 "name", [0x61, 0xFF, 0x62])]⟩ (utf8 "name") = [0x61, 0xFF, 0x62] ∧
    [0x61, 0xFF, 0x62] ∉ seedNames ∧
    (getServiceHandler 0 (fun k => 100 + k) Logger.std .fresh
        ⟨utf8 "GET", utf8 "/api/services/a%FFb", utf8 "10.0.0.7:4711",
          [(utf8 "name", [0x61, 0xFF, 0x62])]⟩).1.body =
      [Payload.stringMap
        [(utf8 "error", utf8 "Service 'a" ++ [0xEF, 0xBF, 0xBD] ++ utf8 "b' not found")]] ∧
    (getServiceHandler 0 (fun k => 100 + k) Logger.std .fresh
        ⟨utf8 "GET", utf8 "/api/services/a%FFb", utf8 "10.0.0.7:4711",
          [(utf8 "name", [0x61, 0xFF, 0x62])]⟩).1.body ≠
      [Payload.stringMap
        [(utf8 "error", utf8 "Service '" ++ [0x61, 0xFF, 0x62] ++ utf8 "' not found")]] := by
  have hl : (servicesMap 0 (fun k => 100 + k)).lookup
      (muxVar ⟨utf8 "GET", utf8 "/api/services/a%FFb", utf8 "10.0.0.7:4711",
        [(utf8 "name", [0x61, 0xFF, 0x62])]⟩ (utf8 "name")) = none :=
    servicesMap_lookup_other _ _ _ (by decide)
  rw [getServiceHandler_missing 0 _ Logger.std .fresh _ hl, fresh_writeHeader_encode,
    errorResponse_json]
  refine ⟨by decide, by decide, ?_, ?_⟩
  · decide
  · decide

/-- C8: for every clock, `getServiceHandler` with name `database` answers with
success and exactly the record `database`, `running`, `48h30m`, stamped with
the reading taken for that entry; status and uptime are the same whatever
`startTime` and the clock are. -/
theorem getServiceHandler_database (startTime : Time) (clock : Clock) (lg : Logger)
    (r : Request) (h : muxVar r (utf8 "name") = utf8 "database") :
    (getServiceHandler startTime clock lg .fresh r).1.status = some StatusOK ∧
    (getServiceHandler startTime clock lg .fresh r).1.body =
      [Payload.service { Name := utf8 "database", Status := utf8 "running",
                         Uptime := utf8 "48h30m", Timestamp := clock 2 }] := by
  have hmem : muxVar r (utf8 "name") ∈ seedNames := by rw [h]; decide
  obtain ⟨s, hs, hn, hin⟩ := servicesMap_lookup_seed startTime clock _ hmem
  have hs' : s = { Name := utf8 "database", Status := utf8 "running",
                   Uptime := utf8 "48h30m", Timestamp := clock 2 } := by
    have d1 : (utf8 "database" == utf8 "api-server") = false := by decide
    rw [h] at hs
    simp [servicesMap, List.lookup, d1] at hs
    exact hs.symm
  rw [getServiceHandler_found startTime clock lg .fresh r s hs, fresh_encode, service_json,
    json_of_mem_servicesSlice startTime clock s hin, hs']
  exact ⟨rfl, rfl⟩

theorem getServiceHandler_database_witness :
    (getServiceHandler 17 (fun _ => 5000) Logger.std .fresh
        ⟨utf8 "GET", utf8 "/api/services/database", utf8 "10.0.0.7:4711",
          [(utf8 "name", utf8 "database")]⟩).1.body =
      [Payload.service { Name := utf8 "database", Status := utf8 "running",
                         Uptime := utf8 "48h30m", Timestamp := 5000 }] :=
  (getServiceHandler_database 17 (fun _ => 5000) Logger.std
    ⟨utf8 "GET", utf8 "/api/services/database", utf8 "10.0.0.7:4711",
      [(utf8 "name", utf8 "database")]⟩
    (by decide)).2

/-! ## List services -/

theorem getServicesHandler_response (startTime : Time) (clock : Clock) (lg : Logger)
    (w : ResponseWriter) (r : Request) :
    (getServicesHandler startTime clock lg w r).1 =
      (w.setHeader (utf8 "Content-Type") (utf8 "application/json")).encode
        (Payload.serviceList (servicesSlice startTime clock)) := by
  unfold getServicesHandler
  rfl

theorem getServicesHandler_fresh (startTime : Time) (clock : Clock) (lg : Logger)
    (r : Request) :
    (getServicesHandler startTime clock lg .fresh r).1 =
      { header := [(utf8 "Content-Type", utf8 "application/json")],
        status := some StatusOK,
        body := [Payload.serviceList (servicesSlice startTime clock)] } := by
  rw [getServicesHandler_response, fresh_encode, serviceList_json, servicesSlice_json]

theorem servicesSlice_names (startTime : Time) (clock : Clock) :
    (servicesSlice startTime clock).map ServiceStatus.Name =
      [utf8 "api-server", utf8 "database", utf8 "cache"] := by
  simp [servicesSlice]

theorem servicesSlice_length (startTime : Time) (clock : Clock) :
    (servicesSlice startTime clock).length = 3 := by
  simp [servicesSlice]

/-- C3: for every request and every clock, `getServicesHandler` writes one
sequence of exactly three records, with pairwise distinct names in the order
`api-server`, `database`, `cache`; two calls write the same names in the same
order. -/
theorem getServicesHandler_three (startTime : Time) (clock clock' : Clock)
    (lg lg' : Logger) (r r' : Request) :
    ∃ l l', (getServicesHandler startTime clock lg .fresh r).1.body = [Payload.serviceList l] ∧
      (getServicesHandler startTime clock' lg' .fresh r').1.body = [Payload.serviceList l'] ∧
      l.length = 3 ∧
      l.map ServiceStatus.Name = [utf8 "api-server", utf8 "database", utf8 "cache"] ∧
      (l.map ServiceStatus.Name).Nodup ∧
      l'.map ServiceStatus.Name = l.map ServiceStatus.Name := by
  refine ⟨servicesSlice startTime clock, servicesSlice startTime clock', ?_, ?_,
    servicesSlice_length _ _, servicesSlice_names _ _, ?_, ?_⟩
  · rw [getServicesHandler_fresh]
  · rw [getServicesHandler_fresh]
  · rw [servicesSlice_names]; decide
  · rw [servicesSlice_names, servicesSlice_names]

/-- C4: at one clock reading `now`, every record written by
`getServicesHandler` is what `getServiceHandler` answers, with success, for
that record's name; every record `getServiceHandler` answers with is one
of the list, under the requested name; and every name it answers with success
is the name of a listed record. -/
theorem list_and_get_agree (startTime now : Time) (lg lg' : Logger) (r r' : Request) :
    (getServicesHandler startTime (fun _ => now) lg .fresh r).1.body =
      [Payload.serviceList (servicesSlice startTime (fun _ => now))] ∧
    (∀ s ∈ servicesSlice startTime (fun _ => now), muxVar r' (utf8 "name") = s.Name →
      (getServiceHandler startTime (fun _ => now) lg' .fresh r').1.status = some StatusOK ∧
      (getServiceHandler startTime (fun _ => now) lg' .fresh r').1.body =
        [Payload.service s]) ∧
    (∀ s, Payload.service s ∈ (getServiceHandler startTime (fun _ => now) lg' .fresh r').1.body →
      s.Name = muxVar r' (utf8 "name") ∧ s ∈ servicesSlice startTime (fun _ => now)) ∧
    ((getServiceHandler startTime (fun _ => now) lg' .fresh r').1.status = some StatusOK →
      muxVar r' (utf8 "name") ∈
        (servicesSlice startTime (fun _ => now)).map ServiceStatus.Name) := by
  refine ⟨by rw [getServicesHandler_fresh], ?_, ?_, ?_⟩
  · intro s hs hname
    have hmem : muxVar r' (utf8 "name") ∈ seedNames := by
      rw [hname]
      have := List.mem_map_of_mem ServiceStatus.Name hs
      rw [servicesSlice_names] at this
      exact this
    obtain ⟨s', hl, hn, hin⟩ := servicesMap_lookup_seed startTime (fun _ => now) _ hmem
    have hss : s' = s := by
      have hnn : s'.Name = s.Name := by rw [hn, hname]
      have d1 : utf8 "api-server" ≠ utf8 "database" := by decide
      have d2 : utf8 "api-server" ≠ utf8 "cache" := by decide
      have d3 : utf8 "database" ≠ utf8 "cache" := by decide
      simp only [servicesSlice, List.mem_cons, List.mem_singleton, List.not_mem_nil,
        or_false] at hs hin
      rcases hs with hs | hs | hs <;> rcases hin with hin | hin | hin <;>
        subst hs <;> subst hin <;> first | rfl | (exfalso; simp_all)
    rw [getServiceHandler_found startTime _ lg' .fresh r' s' hl, fresh_encode, service_json,
      json_of_mem_servicesSlice startTime _ s' hin, hss]
    exact ⟨rfl, rfl⟩
  · intro s hs
    by_cases hmem : muxVar r' (utf8 "name") ∈ seedNames
    · obtain ⟨s', hl, hn, hin⟩ := servicesMap_lookup_seed startTime (fun _ => now) _ hmem
      rw [getServiceHandler_found startTime _ lg' .fresh r' s' hl, fresh_encode, service_json,
        json_of_mem_servicesSlice startTime _ s' hin] at hs
      simp at hs
      subst hs
      exact ⟨hn, hin⟩
    · have hl := servicesMap_lookup_other startTime (fun _ => now) _ hmem
      rw [getServiceHandler_missing startTime _ lg' .fresh r' hl,
        fresh_writeHeader_encode, errorResponse_json] at hs
      simp at hs
  · intro hs
    by_cases hmem : muxVar r' (utf8 "name") ∈ seedNames
    · rw [servicesSlice_names]; exact hmem
    · have hl := servicesMap_lookup_other startTime (fun _ => now) _ hmem
      rw [getServiceHandler_missing startTime _ lg' .fresh r' hl,
        fresh_writeHeader_encode] at hs
      simp [StatusOK, StatusNotFound] at hs

theorem list_and_get_agree_witness :
    ({ Name := utf8 "cache", Status := utf8 "running", Uptime := utf8 "24h15m",
       Timestamp := 5000 } : ServiceStatus) ∈ servicesSlice 17 (fun _ => 5000) ∧
    (getServiceHandler 17 (fun _ => 5000) Logger.std .fresh
        ⟨utf8 "GET", utf8 "/api/services/cache", utf8 "10.0.0.7:4711",
          [(utf8 "name", utf8 "cache")]⟩).1.body =
      [Payload.service
        { Name := utf8 "cache", Status := utf8 "running", Uptime := utf8 "24h15m",
          Timestamp := 5000 }] :=
  ⟨by simp [servicesSlice],
   ((list_and_get_agree 17 5000 Logger.std Logger.std
      ⟨utf8 "GET", utf8 "/api/services", utf8 "10.0.0.7:4711", []⟩
      ⟨utf8 "GET", utf8 "/api/services/cache", utf8 "10.0.0.7:4711",
        [(utf8 "name", utf8 "cache")]⟩).2.1
      { Name := utf8 "cache", Status := utf8 "running", Uptime := utf8 "24h15m",
        Timestamp := 5000 }
      (by simp [servicesSlice]) (by decide)).2⟩

/-! ## Health -/

theorem healthHandler_response (clock : Clock) (lg : Logger) (w : ResponseWriter)
    (r : Request) :
    (healthHandler clock lg w r).1 =
      ((w.setHeader (utf8 "Content-Type") (utf8 "application/json")).writeHeader
          StatusOK).encode
        (Payload.health
          { Status := utf8 "healthy", Timestamp := clock 0, Version := utf8 "1.0.0" }) := by
  unfold healthHandler
  rfl

/-- C5: for every request and every clock, `healthHandler` answers with status
200 and a `HealthResponse` with status `healthy`, version `1.0.0` and the
clock reading as timestamp; the handler has no other outcome. -/
theorem healthHandler_ok (clock : Clock) (lg : Logger) (r : Request) :
    (healthHandler clock lg .fresh r).1.status = some 200 ∧
    (healthHandler clock lg .fresh r).1.body =
      [Payload.health
        { Status := utf8 "healthy", Timestamp := clock 0, Version := utf8 "1.0.0" }] := by
  rw [healthHandler_response, fresh_writeHeader_encode, healthResponse_json]
  exact ⟨rfl, rfl⟩

/-! ## Log events -/

theorem servicesMap_lookup_running (startTime : Time) (clock : Clock) (n : GoString)
    (s : ServiceStatus) (h : (servicesMap startTime clock).lookup n = some s) :
    s.Status = utf8 "running" := by
  simp only [servicesMap, List.lookup] at h
  split at h
  · cases h; rfl
  · split at h
    · cases h; rfl
    · split at h
      · cases h; rfl
      · cases h

theorem log_enabled (lg : Logger) (lvl : Level) (fields : List (GoString × FieldValue))
    (message : GoString) (now : Time) (h : lvl.toNat ≤ lg.level.toNat) :
    (lg.log lvl fields message now).written =
      lg.written ++ [{ level := lvl, message := message, fields := fields, time := now }] := by
  simp [Logger.log, Logger.isLevelEnabled, h]

theorem log_disabled (lg : Logger) (lvl : Level) (fields : List (GoString × FieldValue))
    (message : GoString) (now : Time) (h : lg.level.toNat < lvl.toNat) :
    lg.log lvl fields message now = lg := by
  simp [Logger.log, Logger.isLevelEnabled, Nat.not_le.mpr h]

theorem homeHandler_logger (startTime : Time) (clock : Clock) (lg : Logger)
    (w : ResponseWriter) (r : Request) :
    (homeHandler startTime clock lg w r).2 =
      lg.log .InfoLevel
        [(utf8 "path", .str r.Path), (utf8 "method", .str r.Method),
         (utf8 "remote", .str r.RemoteAddr)]
        (utf8 "Home endpoint accessed") (clock 1) := by
  unfold homeHandler
  rfl

theorem healthHandler_logger (clock : Clock) (lg : Logger) (w : ResponseWriter)
    (r : Request) :
    (healthHandler clock lg w r).2 =
      lg.log .DebugLevel [] (utf8 "Health check performed") (clock 1) := by
  unfold healthHandler
  rfl

theorem getServicesHandler_logger (startTime : Time) (clock : Clock) (lg : Logger)
    (w : ResponseWriter) (r : Request) :
    (getServicesHandler startTime clock lg w r).2 =
      lg.log .InfoLevel
        [(utf8 "path", .str r.Path), (utf8 "method", .str r.Method),
         (utf8 "service_count", .int 3)]
        (utf8 "Services list requested") (clock 4) := by
  unfold getServicesHandler
  simp only [servicesSlice_length]
  rfl

/-- C6, as the code has it: with the logger at the level set by `init`
(`Info`), `homeHandler`, `getServicesHandler` and `getServiceHandler` each write
exactly one event and `healthHandler` writes none, its event being at level
`Debug`. The event of `homeHandler` carries path, method and remote address;
the one of `getServicesHandler` path, method and the service count 3; the one
of `getServiceHandler` the requested name, with the status `running` at level
`Info` for a seed name and alone at level `Warn` otherwise. -/
theorem handlers_log_events (startTime : Time) (clock : Clock) (lg : Logger)
    (w : ResponseWriter) (r : Request) (hlevel : lg.level = (init startTime).logger.level) :
    emitsOneRequestEvent lg (homeHandler startTime clock lg w r).2 r ∧
    (homeHandler startTime clock lg w r).2.written = lg.written ++
      [{ level := .InfoLevel, message := utf8 "Home endpoint accessed",
         fields := [(utf8 "path", .str r.Path), (utf8 "method", .str r.Method),
                    (utf8 "remote", .str r.RemoteAddr)],
         time := clock 1 }] ∧
    (healthHandler clock lg w r).2.written = lg.written ∧
    (getServicesHandler startTime clock lg w r).2.written = lg.written ++
      [{ level := .InfoLevel, message := utf8 "Services list requested",
         fields := [(utf8 "path", .str r.Path), (utf8 "method", .str r.Method),
                    (utf8 "service_count", .int 3)],
         time := clock 4 }] ∧
    (muxVar r (utf8 "name") ∈ seedNames →
      (getServiceHandler startTime clock lg w r).2.written = lg.written ++
        [{ level := .InfoLevel, message := utf8 "Service status requested",
           fields := [(utf8 "service", .str (muxVar r (utf8 "name"))),
                      (utf8 "status", .str (utf8 "running"))],
           time := clock 4 }]) ∧
    (muxVar r (utf8 "name") ∉ seedNames →
      (getServiceHandler startTime clock lg w r).2.written = lg.written ++
        [{ level := .WarnLevel, message := utf8 "Service not found",
           fields := [(utf8 "service", .str (muxVar r (utf8 "name")))],
           time := clock 4 }]) := by
  have hl : lg.level = .InfoLevel := hlevel
  have hInfo : Level.InfoLevel.toNat ≤ lg.level.toNat := by rw [hl]
  have hWarn : Level.WarnLevel.toNat ≤ lg.level.toNat := by rw [hl]; decide
  have hDebug : lg.level.toNat < Level.DebugLevel.toNat := by rw [hl]; decide
  have hHome := log_enabled lg .InfoLevel
    [(utf8 "path", .str r.Path), (utf8 "method", .str r.Method),
     (utf8 "remote", .str r.RemoteAddr)]
    (utf8 "Home endpoint accessed") (clock 1) hInfo
  refine ⟨?_, ?_, ?_, ?_, ?_, ?_⟩
  · rw [homeHandler_logger]
    exact ⟨_, hHome, by simp [carriesRequest]⟩
  · rw [homeHandler_logger]; exact hHome
  · rw [healthHandler_logger, log_disabled _ _ _ _ _ hDebug]
  · rw [getServicesHandler_logger]; exact log_enabled _ _ _ _ _ hInfo
  · intro hmem
    obtain ⟨s, hs, -, -⟩ := servicesMap_lookup_seed startTime clock _ hmem
    rw [getServiceHandler_found startTime clock lg w r s hs,
      servicesMap_lookup_running startTime clock _ s hs]
    exact log_enabled _ _ _ _ _ hInfo
  · intro hmem
    rw [getServiceHandler_missing startTime clock lg w r
      (servicesMap_lookup_other startTime clock _ hmem)]
    exact log_enabled _ _ _ _ _ hWarn

theorem handlers_log_events_witness :
    (init 1000).logger.level = (init 1000).logger.level ∧
    (healthHandler (fun k => 2000 + k) (init 1000).logger .fresh
        ⟨utf8 "GET", utf8 "/health", utf8 "10.0.0.7:4711", []⟩).2.written = [] ∧
    (getServicesHandler 1000 (fun k => 2000 + k) (init 1000).logger .fresh
        ⟨utf8 "GET", utf8 "/api/services", utf8 "10.0.0.7:4711", []⟩).2.written =
      [{ level := .InfoLevel, message := utf8 "Services list requested",
         fields := [(utf8 "path", .str (utf8 "/api/services")),
                    (utf8 "method", .str (utf8 "GET")),
                    (utf8 "service_count", .int 3)],
         time := 2000 + (4 : Nat) }] :=
  have h := handlers_log_events 1000 (fun k => 2000 + k) (init 1000).logger .fresh
    ⟨utf8 "GET", utf8 "/api/services", utf8 "10.0.0.7:4711", []⟩ rfl
  have h' := handlers_log_events 1000 (fun k => 2000 + k) (init 1000).logger .fresh
    ⟨utf8 "GET", utf8 "/health", utf8 "10.0.0.7:4711", []⟩ rfl
  ⟨rfl, h'.2.2.1, h.2.2.2.1⟩

/-- C6 as stated fails: on a concrete request, at the logger left by `init`,
`healthHandler` writes no event, and the single events of `getServicesHandler`
and `getServiceHandler` do not carry the remote address. -/
theorem handlers_log_events_counterexample :
    ¬ emitsOneRequestEvent (init 1000).logger
        (healthHandler (fun k => 2000 + k) (init 1000).logger .fresh
          ⟨utf8 "GET", utf8 "/health", utf8 "10.0.0.7:4711", []⟩).2
        ⟨utf8 "GET", utf8 "/health", utf8 "10.0.0.7:4711", []⟩ ∧
    ¬ emitsOneRequestEvent (init 1000).logger
        (getServicesHandler 1000 (fun k => 2000 + k) (init 1000).logger .fresh
          ⟨utf8 "GET", utf8 "/api/services", utf8 "10.0.0.7:4711", []⟩).2
        ⟨utf8 "GET", utf8 "/api/services", utf8 "10.0.0.7:4711", []⟩ ∧
    ¬ emitsOneRequestEvent (init 1000).logger
        (getServiceHandler 1000 (fun k => 2000 + k) (init 1000).logger .fresh
          ⟨utf8 "GET", utf8 "/api/services/cache", utf8 "10.0.0.7:4711",
            [(utf8 "name", utf8 "cache")]⟩).2
        ⟨utf8 "GET", utf8 "/api/services/cache", utf8 "10.0.0.7:4711",
          [(utf8 "name", utf8 "cache")]⟩ := by
  refine ⟨?_, ?_, ?_⟩
  · rintro ⟨e, he, -⟩
    have hw : (healthHandler (fun k => 2000 + k) (init 1000).logger .fresh
        ⟨utf8 "GET", utf8 "/health", utf8 "10.0.0.7:4711", []⟩).2.written = [] := by
      rw [healthHandler_logger]; rfl
    rw [hw] at he
    simp [init, Logger.std] at he
  · rintro ⟨e, he, hc⟩
    rw [getServicesHandler_logger] at he
    have he' : e =
        { level := .InfoLevel, message := utf8 "Services list requested",
          fields := [(utf8 "path", .str (utf8 "/api/services")),
                     (utf8 "method", .str (utf8 "GET")),
                     (utf8 "service_count", .int 3)],
          time := 2004 } := by
      simp [init, Logger.std, Logger.log, Logger.isLevelEnabled] at he
      exact he.symm
    subst he'
    revert hc
    decide
  · rintro ⟨e, he, hc⟩
    have hw : (getServiceHandler 1000 (fun k => 2000 + k) (init 1000).logger .fresh
          ⟨utf8 "GET", utf8 "/api/services/cache", utf8 "10.0.0.7:4711",
            [(utf8 "name", utf8 "cache")]⟩).2.written =
        [{ level := .InfoLevel, message := utf8 "Service status requested",
           fields := [(utf8 "service", .str (utf8 "cache")),
                      (utf8 "status", .str (utf8 "running"))],
           time := 2004 }] := by
      rw [getServiceHandler_found 1000 _ _ _ _
        { Name := utf8 "cache", Status := utf8 "running", Uptime := utf8 "24h15m",
          Timestamp := 2003 }
        (by decide)]
      rfl
    rw [hw] at he
    have he' : e =
        { level := .InfoLevel, message := utf8 "Service status requested",
          fields := [(utf8 "service", .str (utf8 "cache")),
                     (utf8 "status", .str (utf8 "running"))],
          time := 2004 } := by
      simp [init, Logger.std] at he
      exact he.symm
    subst he'
    revert hc
    decide

/-! ## Home -/

theorem timeSince_of_readings (s t : Time) (hs : isReading s) (ht : isReading t) :
    timeSince s t = t - s := by
  unfold isReading at hs ht
  unfold timeSince subMono wrap64 maxDuration minDuration
  delta Time Duration at *
  norm_num at hs ht ⊢
  have e : (t - s + 9223372036854775808) % 18446744073709551616 - 9223372036854775808
      = t - s := by omega
  rw [e]
  split_ifs <;> omega

theorem natAbs_sub_readings (s t : Int) (hs : isReading s) (ht : isReading t) :
    (t - s).natAbs < 10 ^ 20 := by
  unfold isReading at hs ht
  delta Time at *
  norm_num at hs ht ⊢
  omega

theorem homeHandler_response (startTime : Time) (clock : Clock) (lg : Logger)
    (w : ResponseWriter) (r : Request) :
    (homeHandler startTime clock lg w r).1 =
      (w.setHeader (utf8 "Content-Type") (utf8 "application/json")).encode
        (Payload.stringMap
          [(utf8 "message", utf8 "Welcome to Go Service Monitor API"),
           (utf8 "version", utf8 "1.0.0"),
           (utf8 "uptime", durationString (timeSince startTime (clock 0)))]) := by
  unfold homeHandler
  rfl

/-- C9: the uptime `homeHandler` reports is the text of a duration, and the
duration that text denotes is `now - startTime`: read in the format of
`time.ParseDuration` it gives exactly that value, and no other duration prints
as the same text. For readings `startTime <= t1 <= t2` of the clock the
reported duration is non-negative, the one of the later call is at least the
one of the earlier call, and strictly greater, with a different text, when
`t1 < t2`. -/
theorem homeHandler_uptime (startTime : Time) (clock clock' : Clock) (lg lg' : Logger)
    (r r' : Request) (hs : isReading startTime) (h1 : isReading (clock 0))
    (h2 : isReading (clock' 0)) (hle : startTime ≤ clock 0) (h12 : clock 0 ≤ clock' 0) :
    ∃ (up up' : GoString) (v v' : Duration),
      (homeHandler startTime clock lg .fresh r).1.body =
        [Payload.stringMap
          [(utf8 "message", utf8 "Welcome to Go Service Monitor API"),
           (utf8 "version", utf8 "1.0.0"),
           (utf8 "uptime", up)]] ∧
      (homeHandler startTime clock' lg' .fresh r').1.body =
        [Payload.stringMap
          [(utf8 "message", utf8 "Welcome to Go Service Monitor API"),
           (utf8 "version", utf8 "1.0.0"),
           (utf8 "uptime", up')]] ∧
      up = durationString (timeSince startTime (clock 0)) ∧
      up' = durationString (timeSince startTime (clock' 0)) ∧
      parseDuration up = some v ∧ parseDuration up' = some v' ∧
      v = clock 0 - startTime ∧ v' = clock' 0 - startTime ∧
      timeSince startTime (clock 0) = v ∧ timeSince startTime (clock' 0) = v' ∧
      (∀ u : Duration, u.natAbs < 10 ^ 20 → durationString u = up → u = v) ∧
      (∀ u : Duration, u.natAbs < 10 ^ 20 → durationString u = up' → u = v') ∧
      0 ≤ v ∧ v ≤ v' ∧ (clock 0 < clock' 0 → v < v' ∧ up ≠ up') := by
  have e1 := timeSince_of_readings _ _ hs h1
  have e2 := timeSince_of_readings _ _ hs h2
  have b1 := natAbs_sub_readings _ _ hs h1
  have b2 := natAbs_sub_readings _ _ hs h2
  refine ⟨durationString (timeSince startTime (clock 0)),
    durationString (timeSince startTime (clock' 0)),
    clock 0 - startTime, clock' 0 - startTime, ?_, ?_, rfl, rfl, ?_, ?_, rfl, rfl, e1, e2,
    ?_, ?_, sub_nonneg.mpr hle, sub_le_sub_right h12 _, ?_⟩
  · rw [homeHandler_response, fresh_encode, homeResponse_json]
  · rw [homeHandler_response, fresh_encode, homeResponse_json]
  · rw [e1]; exact parseDuration_durationString _ b1
  · rw [e2]; exact parseDuration_durationString _ b2
  · intro u hu h
    rw [e1] at h
    exact durationString_injective u _ hu b1 h
  · intro u hu h
    rw [e2] at h
    exact durationString_injective u _ hu b2 h
  · intro hlt
    have hv : clock 0 - startTime < clock' 0 - startTime := sub_lt_sub_right hlt _
    refine ⟨hv, ?_⟩
    rw [e1, e2]
    intro h
    have := durationString_injective _ _ b1 b2 h
    exact absurd this (ne_of_lt hv)

theorem homeHandler_uptime_witness :
    (isReading 1000 ∧ isReading 61000001000 ∧ isReading 75000000000) ∧
    durationString (timeSince 1000 61000001000) = utf8 "1m1s" ∧
    parseDuration (utf8 "1m1s") = some 61000000000 ∧
    durationString (timeSince 1000 75000000000) = utf8 "1m14.999999s" ∧
    parseDuration (utf8 "1m14.999999s") = some 74999999000 ∧
    ∃ (up up' : GoString) (v v' : Duration),
      (homeHandler 1000 (fun k => 61000001000 + k) Logger.std .fresh
          ⟨utf8 "GET", utf8 "/", utf8 "10.0.0.7:4711", []⟩).1.body =
        [Payload.stringMap
          [(utf8 "message", utf8 "Welcome to Go Service Monitor API"),
           (utf8 "version", utf8 "1.0.0"),
           (utf8 "uptime", up)]] ∧
      parseDuration up = some v ∧ parseDuration up' = some v' ∧ v < v' ∧ up ≠ up' :=
  have h := homeHandler_uptime 1000 (fun k => 61000001000 + k) (fun k => 75000000000 + k)
    Logger.std Logger.std ⟨utf8 "GET", utf8 "/", utf8 "10.0.0.7:4711", []⟩
    ⟨utf8 "GET", utf8 "/", utf8 "10.0.0.7:4711", []⟩
    (by decide) (by decide) (by decide) (by decide) (by decide)
  ⟨by decide, by decide, by decide, by decide, by decide,
   h.elim fun up h => h.elim fun up' h => h.elim fun v h => h.elim fun v' h =>
     ⟨up, up', v, v', h.1, h.2.2.2.2.1, h.2.2.2.2.2.1,
       (h.2.2.2.2.2.2.2.2.2.2.2.2.2.2 (by decide)).1,
       (h.2.2.2.2.2.2.2.2.2.2.2.2.2.2 (by decide)).2⟩⟩

/-! ## formatDuration -/

theorem formatDuration_unfold (d : Duration) :
    formatDuration d =
      if 0 < d.tdiv (24 * Hour) then
        toString (d.tdiv (24 * Hour)) ++ "d " ++
          toString ((d - d.tdiv (24 * Hour) * 24 * Hour).tdiv Hour) ++ "h " ++
          toString ((d - d.tdiv (24 * Hour) * 24 * Hour -
            (d - d.tdiv (24 * Hour) * 24 * Hour).tdiv Hour * Hour).tdiv Minute) ++ "m"
      else if 0 < (d - d.tdiv (24 * Hour) * 24 * Hour).tdiv Hour then
        toString ((d - d.tdiv (24 * Hour) * 24 * Hour).tdiv Hour) ++ "h " ++
          toString ((d - d.tdiv (24 * Hour) * 24 * Hour -
            (d - d.tdiv (24 * Hour) * 24 * Hour).tdiv Hour * Hour).tdiv Minute) ++ "m"
      else
        toString ((d - d.tdiv (24 * Hour) * 24 * Hour -
            (d - d.tdiv (24 * Hour) * 24 * Hour).tdiv Hour * Hour).tdiv Minute) ++ "m" := by
  unfold formatDuration
  rfl


theorem append_ne_of_pos (p s : String) (h : 0 < p.length) : p ++ s ≠ s := by
  intro e
  have := congrArg String.length e
  rw [String.length_append] at this
  omega

theorem daysPrefix_length_pos (x : Int) : 0 < (toString x ++ "d ").length := by
  rw [String.length_append]
  have : ("d " : String).length = 2 := by decide
  omega

theorem hoursPrefix_length_pos (x : Int) : 0 < (toString x ++ "h ").length := by
  rw [String.length_append]
  have : ("h " : String).length = 2 := by decide
  omega

/-- The split of a non-negative duration made by the first lines of
`formatDuration`, in floor division. -/
theorem formatDuration_split (d : Int) (hd : 0 ≤ d) :
    d.tdiv (24 * Hour) = d / 86400000000000 ∧
    (d - d.tdiv (24 * Hour) * 24 * Hour).tdiv Hour = d % 86400000000000 / 3600000000000 ∧
    (d - d.tdiv (24 * Hour) * 24 * Hour -
        (d - d.tdiv (24 * Hour) * 24 * Hour).tdiv Hour * Hour).tdiv Minute =
      d % 3600000000000 / 60000000000 := by
  have hH : Hour = 3600000000000 := by decide
  have hM : Minute = 60000000000 := by decide
  rw [hH, hM]
  have e1 : d.tdiv (24 * 3600000000000) = d / 86400000000000 := by
    rw [Int.tdiv_eq_ediv hd (by norm_num)]; norm_num
  rw [e1]
  have e2 : d - d / 86400000000000 * 24 * 3600000000000 = d % 86400000000000 := by omega
  rw [e2]
  have e3 : (d % 86400000000000).tdiv 3600000000000 = d % 86400000000000 / 3600000000000 := by
    rw [Int.tdiv_eq_ediv (by omega) (by norm_num)]
  rw [e3]
  have e4 : d % 86400000000000 - d % 86400000000000 / 3600000000000 * 3600000000000
      = d % 3600000000000 := by omega
  rw [e4]
  refine ⟨rfl, rfl, ?_⟩
  rw [Int.tdiv_eq_ediv (by omega) (by norm_num)]


/-- C10: for every non-negative duration `d`, `formatDuration` splits `d` into
`days = d / 24h`, `hours` in `0..23` and `minutes` in `0..59` with
`days*24h + hours*1h + minutes*1min <= d < days*24h + hours*1h + (minutes+1)*1min`;
it prints `<days>d <hours>h <minutes>m` exactly when `days > 0`,
`<hours>h <minutes>m` exactly when `days = 0` and `hours > 0`, and
`<minutes>m` exactly when both are zero. -/
theorem formatDuration_nonneg (d : Duration) (hd : 0 ≤ d) :
    ∃ days hours minutes : Int,
      days = d.tdiv (24 * Hour) ∧ 0 ≤ days ∧
      0 ≤ hours ∧ hours < 24 ∧ 0 ≤ minutes ∧ minutes < 60 ∧
      days * (24 * Hour) + hours * Hour + minutes * Minute ≤ d ∧
      d < days * (24 * Hour) + hours * Hour + (minutes + 1) * Minute ∧
      (formatDuration d =
          toString days ++ "d " ++ toString hours ++ "h " ++ toString minutes ++ "m"
        ↔ 0 < days) ∧
      (formatDuration d = toString hours ++ "h " ++ toString minutes ++ "m"
        ↔ days = 0 ∧ 0 < hours) ∧
      (formatDuration d = toString minutes ++ "m" ↔ days = 0 ∧ hours = 0) := by
  delta Duration at *
  obtain ⟨e1, e2, e3⟩ := formatDuration_split d hd
  have hH : Hour = 3600000000000 := by decide
  have hM : Minute = 60000000000 := by decide
  refine ⟨d / 86400000000000, d % 86400000000000 / 3600000000000,
    d % 3600000000000 / 60000000000, e1.symm, by omega, by omega, by omega, by omega,
    by omega, ?_, ?_, ?_⟩
  · rw [hH, hM]; omega
  · rw [hH, hM]; omega
  rw [formatDuration_unfold, e3, e2, e1]
  generalize hD : d / 86400000000000 = D
  generalize hHr : d % 86400000000000 / 3600000000000 = H
  generalize hMn : d % 3600000000000 / 60000000000 = M
  have hD0 : 0 ≤ D := by omega
  have hH0 : 0 ≤ H := by omega
  have nAB : toString D ++ "d " ++ toString H ++ "h " ++ toString M ++ "m"
      ≠ toString H ++ "h " ++ toString M ++ "m" := by
    have := append_ne_of_pos (toString D ++ "d ") (toString H ++ "h " ++ toString M ++ "m")
      (daysPrefix_length_pos D)
    simpa [String.append_assoc] using this
  have nBC : toString H ++ "h " ++ toString M ++ "m" ≠ toString M ++ "m" := by
    have := append_ne_of_pos (toString H ++ "h ") (toString M ++ "m")
      (hoursPrefix_length_pos H)
    simpa [String.append_assoc] using this
  have nAC : toString D ++ "d " ++ toString H ++ "h " ++ toString M ++ "m"
      ≠ toString M ++ "m" := by
    have := append_ne_of_pos (toString D ++ "d " ++ toString H ++ "h ") (toString M ++ "m")
      (by rw [String.length_append, String.length_append]
          have := daysPrefix_length_pos D
          omega)
    simpa [String.append_assoc] using this
  by_cases c1 : 0 < D
  · rw [if_pos c1]
    exact ⟨⟨fun _ => c1, fun _ => rfl⟩, ⟨fun e => absurd e nAB, fun h => by omega⟩,
      ⟨fun e => absurd e nAC, fun h => by omega⟩⟩
  · rw [if_neg c1]
    by_cases c2 : 0 < H
    · rw [if_pos c2]
      exact ⟨⟨fun e => absurd e.symm nAB, fun h => absurd h c1⟩,
        ⟨fun _ => ⟨by omega, c2⟩, fun _ => rfl⟩,
        ⟨fun e => absurd e nBC, fun h => by omega⟩⟩
    · rw [if_neg c2]
      exact ⟨⟨fun e => absurd e.symm nAC, fun h => absurd h c1⟩,
        ⟨fun e => absurd e.symm nBC, fun h => absurd h.2 c2⟩,
        ⟨fun _ => ⟨by omega, by omega⟩, fun _ => rfl⟩⟩

theorem formatDuration_nonneg_witness :
    (0 : Int) ≤ 176700000000003 ∧
    formatDuration 176700000000003 = "2d 1h 5m" ∧
    ∃ days hours minutes : Int,
      days = (176700000000003 : Int).tdiv (24 * Hour) ∧ 0 ≤ days ∧
      0 ≤ hours ∧ hours < 24 ∧ 0 ≤ minutes ∧ minutes < 60 ∧
      days * (24 * Hour) + hours * Hour + minutes * Minute ≤ 176700000000003 ∧
      176700000000003 < days * (24 * Hour) + hours * Hour + (minutes + 1) * Minute ∧
      (formatDuration 176700000000003 =
          toString days ++ "d " ++ toString hours ++ "h " ++ toString minutes ++ "m"
        ↔ 0 < days) ∧
      (formatDuration 176700000000003 = toString hours ++ "h " ++ toString minutes ++ "m"
        ↔ days = 0 ∧ 0 < hours) ∧
      (formatDuration 176700000000003 = toString minutes ++ "m" ↔ days = 0 ∧ hours = 0) :=
  ⟨by decide, by decide, formatDuration_nonneg 176700000000003 (by decide)⟩

/-! ## Lifecycle -/

theorem lifecycleInv_initial : LifecycleInv [] State.initial := by
  simp [LifecycleInv, State.initial]

theorem lifecycleInv_step (tr : List Action) (s s' : State) (a : Action)
    (hinv : LifecycleInv tr s) (h : step s a = some s') : LifecycleInv (tr ++ [a]) s' := by
  obtain ⟨m, sv, n, q, rc, sc, dl, ex⟩ := s
  obtain ⟨i1, i2, i3, i4, i5⟩ := hinv
  simp only at i1 i2 i3 i4 i5
  cases ex with
  | some e => simp [step] at h
  | none =>
    cases a with
    | mainStep =>
      cases m <;> simp [step, stepMain] at h
      case atRecv =>
        cases q with
        | none => simp at h
        | some sig =>
          simp at h
          subst h
          have := i1 sig rfl
          refine ⟨?_, ?_, ?_, ?_, ?_⟩ <;> simp_all
      all_goals (subst h; refine ⟨?_, ?_, ?_, ?_, ?_⟩ <;> simp_all)
    | drained =>
      simp [step] at h
      obtain ⟨hm, h⟩ := h
      subst h; subst hm
      refine ⟨?_, ?_, ?_, ?_, ?_⟩ <;> simp_all
    | deadlineExceeded =>
      simp [step] at h
      obtain ⟨hm, h⟩ := h
      subst h; subst hm
      refine ⟨?_, ?_, ?_, ?_, ?_⟩ <;> simp_all
    | serverStep =>
      cases sv <;> simp [step, stepServer] at h
      all_goals (subst h; refine ⟨?_, ?_, ?_, ?_, ?_⟩ <;> simp_all)
    | listenError =>
      simp [step] at h
      obtain ⟨hm, h⟩ := h
      subst h
      refine ⟨?_, ?_, ?_, ?_, ?_⟩ <;> simp_all
    | serverClosed =>
      simp [step] at h
      obtain ⟨hm, h⟩ := h
      subst h
      refine ⟨?_, ?_, ?_, ?_, ?_⟩ <;> simp_all
    | signal sig =>
      simp only [step, Option.isSome_none, Bool.false_eq_true, if_false, Option.some.injEq] at h
      subst h
      unfold deliver
      by_cases hr : (n && relayed sig) = true
      · rw [if_pos hr]
        cases q with
        | none =>
          refine ⟨?_, ?_, ?_, ?_, ?_⟩ <;> simp_all
        | some old =>
          refine ⟨?_, ?_, ?_, ?_, ?_⟩ <;> simp_all
      · rw [if_neg hr]
        refine ⟨?_, ?_, ?_, ?_, ?_⟩ <;> simp_all

theorem lifecycleInv_run (tr : List Action) :
    ∀ (pre : List Action) (s s' : State),
      LifecycleInv pre s → run s tr = some s' → LifecycleInv (pre ++ tr) s' := by
  induction tr with
  | nil =>
    intro pre s s' hinv h
    simp only [run, Option.some.injEq] at h
    subst h
    simpa using hinv
  | cons a rest ih =>
    intro pre s s' hinv h
    simp only [run] at h
    cases hs : step s a with
    | none => rw [hs] at h; simp at h
    | some s1 =>
      rw [hs] at h
      have := ih (pre ++ [a]) s1 s' (lifecycleInv_step pre s s1 a hinv hs) h
      simpa using this

theorem relayed_iff (sig : Signal) :
    relayed sig = true ↔ sig = .SIGINT ∨ sig = .SIGTERM := by
  cases sig <;> simp [relayed]

theorem phase_draining_iff (s : State) :
    phase s = .Draining ↔ s.exit = none ∧ s.main = .inShutdown := by
  obtain ⟨m, sv, n, q, rc, sc, dl, ex⟩ := s
  cases ex <;> cases m <;> simp [phase]

theorem step_phase (s s' : State) (a : Action) (h : step s a = some s') :
    (phase s).rank ≤ (phase s').rank ∧
    (a.byMain = true → phase s' = phase s ∨ (phase s).next = some (phase s')) ∧
    (phase s' = .Draining →
      phase s = .Draining ∨ (phase s = .Serving ∧ a = .mainStep ∧ s.main = .atShutdown)) ∧
    (phase s = .Stopped → phase s' = .Stopped) := by
  obtain ⟨m, sv, n, q, rc, sc, dl, ex⟩ := s
  cases ex with
  | some e => simp [step] at h
  | none =>
    cases a with
    | mainStep =>
      cases m <;> simp [step, stepMain] at h
      case atRecv =>
        cases q with
        | none => simp at h
        | some sig =>
          simp at h
          subst h
          simp [phase, Lifecycle.rank, Lifecycle.next, Action.byMain]
      all_goals (subst h; simp [phase, Lifecycle.rank, Lifecycle.next, Action.byMain])
    | drained =>
      simp [step] at h
      obtain ⟨hm, h⟩ := h
      subst h; subst hm
      simp [phase, Lifecycle.rank, Lifecycle.next, Action.byMain]
    | deadlineExceeded =>
      simp [step] at h
      obtain ⟨hm, h⟩ := h
      subst h; subst hm
      simp [phase, Lifecycle.rank, Lifecycle.next, Action.byMain]
    | serverStep =>
      cases sv <;> simp [step, stepServer] at h
      all_goals
        (subst h; cases m <;> simp [phase, Lifecycle.rank, Lifecycle.next, Action.byMain])
    | listenError =>
      simp [step] at h
      obtain ⟨hm, h⟩ := h
      subst h
      cases m <;> simp [phase, Lifecycle.rank, Lifecycle.next, Action.byMain]
    | serverClosed =>
      simp [step] at h
      obtain ⟨hm, h⟩ := h
      subst h
      cases m <;> simp [phase, Lifecycle.rank, Lifecycle.next, Action.byMain]
    | signal sig =>
      simp only [step, Option.isSome_none, Bool.false_eq_true, if_false, Option.some.injEq] at h
      subst h
      unfold deliver
      by_cases hr : (n && relayed sig) = true
      · rw [if_pos hr]
        cases q <;> cases m <;> simp [phase, Lifecycle.rank, Lifecycle.next, Action.byMain]
      · rw [if_neg hr]
        cases m <;> simp [phase, Lifecycle.rank, Lifecycle.next, Action.byMain]

/-- C7: along every execution of `main` from its initial state, the lifecycle
starts in `Initializing`; each move keeps the lifecycle state or advances it
in the order `Initializing, Serving, Draining, Stopped`, and a move of the main
goroutine advances it by at most one; `Draining` is entered only by the call
of `srv.Shutdown` with the 30 second deadline, which happens only after the
receive from `quit` has returned a delivered `SIGINT` or `SIGTERM`; and no
move leaves `Stopped`. -/
theorem main_lifecycle (tr : List Action) (s : State) (h : run State.initial tr = some s) :
    phase State.initial = .Initializing ∧
    ((s.shutdownCalled = true ∨ phase s = .Draining) →
      ∃ sig, (sig = .SIGINT ∨ sig = .SIGTERM) ∧ s.received = some sig ∧
        Action.signal sig ∈ tr) ∧
    (phase s = .Draining → s.shutdownCalled = true ∧ s.deadline = some 30) ∧
    (∀ a s', step s a = some s' →
      (phase s).rank ≤ (phase s').rank ∧
      (a.byMain = true → phase s' = phase s ∨ (phase s).next = some (phase s')) ∧
      (phase s' = .Draining →
        phase s = .Draining ∨ (phase s = .Serving ∧ a = .mainStep ∧ s.main = .atShutdown)) ∧
      (phase s = .Stopped → phase s' = .Stopped)) := by
  have hinv := lifecycleInv_run tr [] State.initial s lifecycleInv_initial h
  simp only [List.nil_append] at hinv
  obtain ⟨-, i2, i3, i4, i5⟩ := hinv
  refine ⟨by decide, ?_, ?_, fun a s' hs => step_phase s s' a hs⟩
  · intro hc
    have hm : s.main ∈ [MainPc.inShutdown, .atFatal, .atExitLog] := by
      rcases hc with hc | hc
      · exact i4.mp hc
      · rw [((phase_draining_iff s).mp hc).2]; simp
    have hr : s.received.isSome = true := by
      apply i3
      simp only [List.mem_cons, List.mem_singleton, List.not_mem_nil, or_false] at hm ⊢
      tauto
    obtain ⟨sig, hsig⟩ := Option.isSome_iff_exists.mp hr
    exact ⟨sig, (relayed_iff sig).mp (i2 sig hsig).1, hsig, (i2 sig hsig).2⟩
  · intro hd
    have hm := ((phase_draining_iff s).mp hd).2
    exact ⟨i4.mpr (by rw [hm]; simp), i5 (by rw [hm]; simp)⟩

theorem main_lifecycle_witness :
    run State.initial
        [.mainStep, .mainStep, .serverStep, .mainStep, .signal .SIGTERM, .mainStep,
         .mainStep, .mainStep] =
      some { main := .inShutdown, server := .inListenAndServe, notified := true,
             quit := none, received := some .SIGTERM, shutdownCalled := true,
             deadline := some 30, exit := none } ∧
    phase { main := .inShutdown, server := .inListenAndServe, notified := true,
            quit := none, received := some .SIGTERM, shutdownCalled := true,
            deadline := some 30, exit := none } = .Draining ∧
    ∃ sig, (sig = Signal.SIGINT ∨ sig = Signal.SIGTERM) ∧
      (some Signal.SIGTERM) = some sig ∧
      Action.signal sig ∈
        [Action.mainStep, .mainStep, .serverStep, .mainStep, .signal .SIGTERM, .mainStep,
         .mainStep, .mainStep] :=
  ⟨by decide, by decide,
   (main_lifecycle
      [.mainStep, .mainStep, .serverStep, .mainStep, .signal .SIGTERM, .mainStep,
       .mainStep, .mainStep]
      { main := .inShutdown, server := .inListenAndServe, notified := true,
        quit := none, received := some .SIGTERM, shutdownCalled := true,
        deadline := some 30, exit := none }
      (by decide)).2.1 (Or.inl rfl)⟩

/-- A failure of `srv.ListenAndServe()` ends the process from `Serving`, by the
`log.Fatalf` of the server goroutine, without a drain. -/
theorem listen_failure_stops :
    (run State.initial [.mainStep, .mainStep, .serverStep, .listenError]).map phase =
      some .Serving ∧
    (run State.initial [.mainStep, .mainStep, .serverStep, .listenError, .serverStep]).map
        (fun s => (phase s, s.exit, s.shutdownCalled)) =
      some (.Stopped, some (.code 1), false) := by
  decide

/-- A `SIGINT` delivered before `signal.Notify` has run ends the process. -/
theorem early_signal_stops :
    (run State.initial [.mainStep, .signal .SIGINT]).map (fun s => (phase s, s.exit)) =
      some (.Stopped, some (.killed .SIGINT)) := by
  decide

end GoServiceMonitor
